import Mathlib

/-
Verification of the Honos-Sync reconciliation engine.

The definitions below are a shallow embedding of the repository's core:
`SyncManager` (syncVault / uploadFile / downloadFile / deleteFile),
`MetadataManager` (an in-memory path-keyed record store), and
`ConflictHandler` (auto-merge with a manual-resolution fallback).
The host application's vault (file tree) is modelled as an explicit state
(list of files, list of folders, a logical clock for timestamps), and the
external transport (`NetworkClient`, whose source is not in the repository)
is modelled from the spec's interface section as a record of pure response
functions.  Asynchronous effects are sequentialized; the logical clock
advances by one on every durable write, standing in for wall-clock reads
(`Date.now()`) and file modification times.  User notices and console
logging are recorded as an event trace, together with instrumentation
events marking each transport call and each conflict-handler invocation.
-/

namespace Honos

/-- JS-style numeric `a || b`: `0` is falsy, so the right operand is used
when the left is zero. -/
def jsOr (a b : Nat) : Nat := if a = 0 then b else a

/-- A remote directory entry, as returned by the transport's `listFiles`. -/
structure RemoteFile where
  path : String
  revision : Option Nat
  hash : String
  size : Nat
deriving DecidableEq

/-- The file descriptor inside a download response
(`{hash, revision, size, parentRevision}`). -/
structure FileInfo where
  hash : String
  revision : Option Nat
  parentRevision : Option Nat
  size : Nat
deriving DecidableEq

/-- The file descriptor inside an upload response (`{hash, revision}`). -/
structure UploadedFile where
  hash : String
  revision : Option Nat
deriving DecidableEq

/-- Conflict context attached to a rejected upload. -/
structure ConflictInfo where
  currentRevision : Nat
  yourParentRevision : Nat
deriving DecidableEq

/-- Result of `NetworkClient.listFiles`. -/
structure ListResult where
  success : Bool
  files : Option (List RemoteFile)
  error : Option String
deriving DecidableEq

/-- Result of `NetworkClient.uploadFile`. -/
structure UploadResult where
  success : Bool
  file : Option UploadedFile
  error : Option String
  conflict : Option ConflictInfo
deriving DecidableEq

/-- Result of `NetworkClient.downloadFile`. -/
structure DownloadResult where
  success : Bool
  file : Option FileInfo
  content : Option String
  isConflict : Bool
deriving DecidableEq

/-- Result of `NetworkClient.deleteFile`. -/
structure DeleteResult where
  success : Bool
  conflict : Bool
deriving DecidableEq

/-- Request for `NetworkClient.attemptAutoMerge`. -/
structure MergeRequest where
  filePath : String
  ourContent : String
  ancestorRevision : Nat
  theirRevision : Nat
deriving DecidableEq

/-- Result of `NetworkClient.attemptAutoMerge`. -/
structure MergeResult where
  success : Bool
  hasConflict : Bool
  mergedContent : Option String
deriving DecidableEq

/-- Options carried by upload/delete requests. -/
structure UploadOptions where
  parentRevision : Nat
  deviceId : String
deriving DecidableEq

/-- Modelled from the spec (section 6): the external transport client.
`NetworkClient.ts` is not among the sources, so the transport is a record
of pure response functions, fixed for a run; a response is a pure function
of the request. -/
structure NetworkClient where
  listFiles : ListResult
  downloadFile : String → Option Nat → DownloadResult
  uploadFile : String → String → UploadOptions → UploadResult
  deleteFile : String → UploadOptions → DeleteResult
  attemptAutoMerge : MergeRequest → MergeResult

/-- The parts of the plugin settings that the sync engine reads. -/
structure SyncPluginSettings where
  token : String
  deviceId : String
deriving DecidableEq

/-- A metadata record, as stored by `MetadataManager` (one per synced path). -/
structure LocalFileMetadata where
  path : String
  hash : String
  size : Nat
  revision : Nat
  parentRevision : Nat
  lastSyncedAt : Nat
  deviceId : String
deriving DecidableEq

/-- A file of the local vault: path, current content, and modification time
(in logical-clock units). -/
structure VFile where
  path : String
  content : String
  mtime : Nat
deriving DecidableEq

/-- Observable effects of a run: user notices, console logging, transport
calls, and conflict-handler invocations (the latter two are
instrumentation marking the corresponding call sites in the source). -/
inductive Event where
  | notice (msg : String)
  | consoleError (msg : String)
  | netListFiles
  | netDownload (path : String) (revision : Option Nat)
  | netUpload (path : String)
  | netDelete (path : String)
  | netMerge (path : String)
  | handleConflictCalled (path : String) (c : Option ConflictInfo)
  | fuelExhausted
deriving DecidableEq

/-- The mutable world the engine acts on: the vault (files and folders),
the metadata store, the logical clock, the in-flight flag, and the event
trace. -/
structure SyncState where
  files : List VFile
  folders : List String
  meta : List (String × LocalFileMetadata)
  clock : Nat
  isSyncing : Bool
  events : List Event
deriving DecidableEq

/-- Append an observable event. -/
def addEvent (s : SyncState) (e : Event) : SyncState :=
  {s with events := s.events ++ [e]}

/-- Advance the logical clock (models time passing across a durable write). -/
def tick (s : SyncState) : SyncState :=
  {s with clock := s.clock + 1}

/-- `MetadataManager.getMetadata`: first record stored under the path. -/
def mget : List (String × LocalFileMetadata) → String → Option LocalFileMetadata
  | [], _ => none
  | (q, v) :: t, p => if q = p then some v else mget t p

/-- Remove every record stored under the path. -/
def mdel : List (String × LocalFileMetadata) → String → List (String × LocalFileMetadata)
  | [], _ => []
  | (q, v) :: t, p => if q = p then mdel t p else (q, v) :: mdel t p

/-- Store a record under the path, replacing any existing one. -/
def mset (l : List (String × LocalFileMetadata)) (p : String) (v : LocalFileMetadata) :
    List (String × LocalFileMetadata) :=
  (p, v) :: mdel l p

/-- Look up a vault file by path (first match). -/
def vget : List VFile → String → Option VFile
  | [], _ => none
  | f :: t, p => if f.path = p then some f else vget t p

/-- The paths of a list of vault files. -/
def vpaths (l : List VFile) : List String := l.map (fun f => f.path)

/-- Result of `vault.getAbstractFileByPath`: a file, a folder, or nothing. -/
inductive AbstractLookup where
  | file (f : VFile)
  | folder
  | missing
deriving DecidableEq

/-- `vault.getAbstractFileByPath` over the modelled vault. -/
def vlookupAbs (s : SyncState) (p : String) : AbstractLookup :=
  match vget s.files p with
  | some f => .file f
  | none => if p ∈ s.folders then .folder else .missing

/-- `vault.modify`: overwrite a file's content; its mtime becomes the
current clock, and the clock advances. -/
def vmodifyU (s : SyncState) (p c : String) : SyncState :=
  tick {s with files :=
    s.files.map (fun f => if f.path = p then {f with content := c, mtime := s.clock} else f)}

/-- Unchecked `vault.create`: append a fresh file stamped with the current
clock, and advance the clock. -/
def vcreateU (s : SyncState) (p c : String) : SyncState :=
  tick {s with files := s.files ++ [⟨p, c, s.clock⟩]}

/-- `vault.create`: fails (throws, in the source) when the path already
names a file or a folder. -/
def vcreateE (s : SyncState) (p c : String) : Except String SyncState :=
  match vlookupAbs s p with
  | .missing => .ok (vcreateU s p c)
  | _ => .error "file exists"

/-- `vault.createFolder` (call sites guard against existing entries). -/
def vcreateFolderU (s : SyncState) (p : String) : SyncState :=
  tick {s with folders := s.folders ++ [p]}

/-- `path.substring(0, path.lastIndexOf('/'))`: the parent-directory part
(everything before the last separator), empty when the path has no
separator; computed on the character list. -/
def folderOf (p : String) : String :=
  if p.data.contains '/' then
    String.mk (((p.data.reverse.dropWhile (fun c => c != '/')).drop 1).reverse)
  else ""

/-- `TFile.name`: the last path component (everything after the last
separator). -/
def nameOf (p : String) : String :=
  String.mk ((p.data.reverse.takeWhile (fun c => c != '/')).reverse)

/-- `TFile.extension`: the part of the name after its last dot, empty
when the name has no dot. -/
def extOf (p : String) : String :=
  if (nameOf p).data.contains '.' then
    String.mk (((nameOf p).data.reverse.takeWhile (fun c => c != '.')).reverse)
  else ""

/-- The syncable-extension allow-list of `SyncManager.shouldSyncFile`. -/
def syncExts : List String :=
  ["md", "txt", "json", "css", "js", "html", "xml", "yaml", "yml"]

/-- Lower-casing on the character list (`ext.toLowerCase()`). -/
def lowerStr (x : String) : String := String.mk (x.data.map Char.toLower)

/-- `SyncManager.shouldSyncFile` (the extension is a function of the path). -/
def shouldSyncPath (p : String) : Bool := syncExts.contains (lowerStr (extOf p))

/-- `localMeta?.revision || 0`. -/
def metaRevD (l : List (String × LocalFileMetadata)) (p : String) : Nat :=
  ((mget l p).map (fun m => m.revision)).getD 0

/-- `MetadataManager.saveMetadata` as invoked by the engine: every call
site passes the full field set, so the partial-merge collapses to a
replacing insert; `lastSyncedAt` is `Date.now()` at the call, and the
durable flush advances the clock. -/
def saveMetaRec (s : SyncState) (p : String) (hash : String)
    (rev parentRev size : Nat) (dev : String) : SyncState :=
  tick {s with meta := mset s.meta p ⟨p, hash, size, rev, parentRev, s.clock, dev⟩}

/-- `SyncManager.downloadFile`: fetch content at a revision, write it to
the vault (creating the parent folder when needed), and record metadata
from the response descriptor.  When the path names a folder, the source
writes nothing yet still reports success.  The source's try/catch is
inert here because no modelled primitive on this code path can fail. -/
def downloadFileRun (nc : NetworkClient) (set : SyncPluginSettings)
    (path : String) (revision : Option Nat) (s : SyncState) : Bool × SyncState :=
  let result := nc.downloadFile path revision
  let s := addEvent s (.netDownload path revision)
  match result.file, result.content with
  | some fi, some c =>
    if result.success then
      let s := if result.isConflict
        then addEvent s (.notice ("Server marked as conflicted: " ++ path)) else s
      let afp := vlookupAbs s path
      let fp := folderOf path
      let s := if fp ≠ "" ∧ vlookupAbs s fp = .missing then vcreateFolderU s fp else s
      match afp with
      | .file _ =>
        let s := vmodifyU s path c
        (true, saveMetaRec s path fi.hash (fi.revision.getD 0)
          (jsOr (fi.parentRevision.getD 0) (fi.revision.getD 0)) fi.size set.deviceId)
      | .missing =>
        let s := vcreateU s path c
        (true, saveMetaRec s path fi.hash (fi.revision.getD 0)
          (jsOr (fi.parentRevision.getD 0) (fi.revision.getD 0)) fi.size set.deviceId)
      | .folder => (true, s)
    else (false, s)
  | _, _ => (false, s)

/-- The marked document written by manual conflict resolution
(the source's template literal, trimmed). -/
def conflictMarked (localContent serverContent backupPath : String) : String :=
  ("\n<<<<<<< LOCAL (Your Version)\n" ++ localContent ++ "\n=======\n" ++ serverContent ++
   "\n>>>>>>> SERVER (Remote Version)\n\n<!-- Conflict detected. Please resolve manually and re-sync. -->\n<!-- A backup of the server version has been saved to: " ++
   backupPath ++ " -->\n").trim

/-- The timestamp string used in backup names; the source uses the ISO
wall-clock time with `:` and `.` replaced, abstracted here to the
(injective) decimal rendering of the logical clock. -/
def tsString (n : Nat) : String := toString n

/-- Tail of `ConflictHandler.handleManualConflict` once a backup exists:
overwrite the local file with the marked document and notify. -/
def finishManual (path localContent serverContent backupPath : String)
    (s : SyncState) : SyncState :=
  let s := vmodifyU s path (conflictMarked localContent serverContent backupPath)
  addEvent s (.notice ("Conflict backup saved: " ++ backupPath))

/-- `ConflictHandler.handleManualConflict`: create one backup holding the
server content (retrying once with a flattened name), then write the
marked document.  A second creation failure is the exception that
propagates into `handleConflict`'s catch, modelled by the final branch's
error events. -/
def handleManualRun (path localContent serverContent : String)
    (s : SyncState) : SyncState :=
  let s := addEvent s (.notice ("Cannot auto-merge: " ++ path))
  let ts := tsString s.clock
  let primary := path ++ ".conflict-" ++ ts ++ ".md"
  match vcreateE s primary serverContent with
  | .ok s1 => finishManual path localContent serverContent primary s1
  | .error _ =>
    let fallback := "conflict-" ++ ts ++ "-" ++ nameOf path
    match vcreateE s fallback serverContent with
    | .ok s1 => finishManual path localContent serverContent fallback s1
    | .error _ =>
      addEvent (addEvent s (.consoleError ("Error handling conflict: " ++ path)))
        (.notice ("Error handling conflict for " ++ path))

/-- `ConflictHandler.handleConflict`, parameterized (as in the source's
constructor) by the re-upload callback invoked after a successful merge.
Fetch the server content, attempt a three-way merge when an ancestor
revision exists, write merged content and re-upload on clean success,
and otherwise fall back to manual resolution.  A missing local file
models `vault.read` throwing into the handler's own catch. -/
def handleConflictWith (nc : NetworkClient)
    (onMergeSuccess : String → SyncState → Bool × SyncState)
    (path : String) (c : Option ConflictInfo) (s : SyncState) : SyncState :=
  let s := addEvent s (.handleConflictCalled path c)
  match c with
  | none => addEvent s (.notice ("Conflict detected but no conflict info: " ++ path))
  | some conflict =>
    let s := addEvent s (.notice ("Conflict detected, attempting auto-merge: " ++ path))
    let serverResponse := nc.downloadFile path (some conflict.currentRevision)
    let s := addEvent s (.netDownload path (some conflict.currentRevision))
    let serverContent := serverResponse.content.getD ""
    if conflict.yourParentRevision > 0 then
      let s := addEvent s (.netDownload path (some conflict.yourParentRevision))
      match vget s.files path with
      | none =>
        addEvent (addEvent s (.consoleError ("Error handling conflict: " ++ path)))
          (.notice ("Error handling conflict for " ++ path))
      | some file =>
        let mr := nc.attemptAutoMerge
          ⟨path, file.content, conflict.yourParentRevision, conflict.currentRevision⟩
        let s := addEvent s (.netMerge path)
        if mr.success = true ∧ mr.hasConflict = false ∧ mr.mergedContent.getD "" ≠ "" then
          let s := addEvent s (.notice ("Auto-merged " ++ path))
          let s := vmodifyU s path (mr.mergedContent.getD "")
          (onMergeSuccess path s).2
        else
          handleManualRun path file.content serverContent s
    else
      match vget s.files path with
      | none =>
        addEvent (addEvent s (.consoleError ("Error handling conflict: " ++ path)))
          (.notice ("Error handling conflict for " ++ path))
      | some file => handleManualRun path file.content serverContent s

/-- `SyncManager.uploadFile`: read the file, upload with the stored
revision as claimed parent, and on success store the server-assigned
revision as both `revision` and `parentRevision`.  A rejection flagged
`Conflict detected` with a context routes to the conflict handler; any
other rejection is logged as a failure.  The `fuel` argument bounds the
conflict-handler / re-upload recursion (unbounded in the source); a
missing file models `vault.read` throwing into the catch. -/
def uploadFileGo (nc : NetworkClient) (set : SyncPluginSettings) :
    Nat → String → SyncState → Bool × SyncState
  | fuel, path, s =>
    match vget s.files path with
    | none => (false, addEvent s (.consoleError ("Error uploading " ++ path)))
    | some file =>
      let result := nc.uploadFile path file.content ⟨metaRevD s.meta path, set.deviceId⟩
      let s1 := addEvent s (.netUpload path)
      if result.success then
        (true, saveMetaRec s1 path ((result.file.map (fun f => f.hash)).getD "")
          ((result.file.map (fun f => f.revision.getD 0)).getD 0)
          ((result.file.map (fun f => f.revision.getD 0)).getD 0)
          file.content.length set.deviceId)
      else if result.error = some "Conflict detected" ∧ result.conflict.isSome then
        match fuel with
        | 0 => (false, addEvent s1 .fuelExhausted)
        | n + 1 =>
          (false, handleConflictWith nc (uploadFileGo nc set n) path result.conflict s1)
      else (false, addEvent s1 (.consoleError ("Failed to upload " ++ path)))

/-- The body of `uploadFile`'s try block, with its exception surface made
explicit: in the embedding the only throwing primitive on this path is
the vault read, so the body either throws (missing file) or runs the
total upload. -/
def uploadFileE (nc : NetworkClient) (set : SyncPluginSettings)
    (fuel : Nat) (path : String) (s : SyncState) : Except String (Bool × SyncState) :=
  match vget s.files path with
  | none => .error "vault read failed"
  | some _ => .ok (uploadFileGo nc set fuel path s)

/-- `SyncManager.deleteFile`: send the delete with the stored revision as
claimed parent, warn (without aborting) on a reported conflict, and
remove the local metadata record unconditionally. -/
def deleteFileRun (nc : NetworkClient) (set : SyncPluginSettings)
    (path : String) (s : SyncState) : Bool × SyncState :=
  let localMeta := mget s.meta path
  let result := nc.deleteFile path ⟨(localMeta.map (fun m => m.revision)).getD 0, set.deviceId⟩
  let s := addEvent s (.netDelete path)
  let s := if result.conflict then addEvent s (.notice ("Conflict when deleting " ++ path)) else s
  let s := if mget s.meta path = none then s else tick {s with meta := mdel s.meta path}
  (result.success, s)

/-- The per-pass summary (the source reports `downloaded`/`uploaded` in a
notice; `failed` counts the load-bearing `success` tests that came back
false, an observable of the same run). -/
structure SyncSummary where
  downloaded : Nat
  uploaded : Nat
  failed : Nat
deriving DecidableEq

/-- How an invocation of `syncVault` ends. -/
inductive SyncOutcome where
  | notAuthenticated
  | busy
  | listFailed
  | completed (summary : SyncSummary)
deriving DecidableEq

/-- One iteration of the downward phase: download when no metadata record
exists or the listed revision exceeds the stored one.  The accumulator is
`(downloaded, failed, state)`. -/
def downStep (nc : NetworkClient) (set : SyncPluginSettings)
    (acc : Nat × Nat × SyncState) (remote : RemoteFile) : Nat × Nat × SyncState :=
  let s := acc.2.2
  let localMeta := mget s.meta remote.path
  let remoteRev := remote.revision.getD 0
  let localRev := (localMeta.map (fun m => m.revision)).getD 0
  if localMeta = none ∨ remoteRev > localRev then
    let r := downloadFileRun nc set remote.path (some remoteRev) s
    if r.1 then (acc.1 + 1, acc.2.1, r.2) else (acc.1, acc.2.1 + 1, r.2)
  else acc

/-- The downward phase: fold `downStep` over the remote snapshot. -/
def downPhase (nc : NetworkClient) (set : SyncPluginSettings) :
    List RemoteFile → (Nat × Nat × SyncState) → Nat × Nat × SyncState
  | [], acc => acc
  | r :: rest, acc => downPhase nc set rest (downStep nc set acc r)

/-- One iteration of the upward phase: upload when no metadata record
exists or the file's mtime is strictly newer than `lastSyncedAt`.  The
snapshot holds live file handles, modelled by a fresh lookup per path. -/
def upStep (nc : NetworkClient) (set : SyncPluginSettings) (fuel : Nat)
    (acc : Nat × Nat × SyncState) (path : String) : Nat × Nat × SyncState :=
  let s := acc.2.2
  match vget s.files path with
  | none => acc
  | some file =>
    match mget s.meta path with
    | none =>
      let r := uploadFileGo nc set fuel path s
      if r.1 then (acc.1 + 1, acc.2.1, r.2) else (acc.1, acc.2.1 + 1, r.2)
    | some m =>
      if file.mtime > m.lastSyncedAt then
        let r := uploadFileGo nc set fuel path s
        if r.1 then (acc.1 + 1, acc.2.1, r.2) else (acc.1, acc.2.1 + 1, r.2)
      else acc

/-- The upward phase: fold `upStep` over the snapshot of syncable paths. -/
def upPhase (nc : NetworkClient) (set : SyncPluginSettings) (fuel : Nat) :
    List String → (Nat × Nat × SyncState) → Nat × Nat × SyncState
  | [], acc => acc
  | p :: rest, acc => upPhase nc set fuel rest (upStep nc set fuel acc p)

/-- The body of `syncVault` after a successful listing: downward phase,
then upward phase over the then-current syncable files, then the
completion notice and release of the in-flight flag. -/
def syncCore (nc : NetworkClient) (set : SyncPluginSettings) (fuel : Nat)
    (silent : Bool) (files : List RemoteFile) (s : SyncState) : SyncOutcome × SyncState :=
  let d := downPhase nc set files (0, 0, s)
  let paths := (d.2.2.files.filter (fun f => shouldSyncPath f.path)).map (fun f => f.path)
  let u := upPhase nc set fuel paths (0, 0, d.2.2)
  let s2 := if silent then u.2.2 else addEvent u.2.2 (.notice "Sync completed")
  (.completed ⟨d.1, u.1, d.2.1 + u.2.1⟩, {s2 with isSyncing := false})

/-- `SyncManager.syncVault`: authentication gate, busy gate, remote
listing, downward then upward phase; any listing failure aborts the pass
before either phase and releases the in-flight flag. -/
def syncVault (nc : NetworkClient) (set : SyncPluginSettings) (fuel : Nat)
    (silent : Bool) (s : SyncState) : SyncOutcome × SyncState :=
  if set.token = "" then
    (.notAuthenticated,
     addEvent s (.notice "Not authenticated. Please configure your API token."))
  else if s.isSyncing then
    (.busy, addEvent s (.notice "Sync already in progress..."))
  else
    let s1 : SyncState := {s with isSyncing := true}
    let s1 := if silent then s1 else addEvent s1 (.notice "Starting sync...")
    let lr := nc.listFiles
    let s1 := addEvent s1 .netListFiles
    match lr.files, lr.success with
    | some files, true => syncCore nc set fuel silent files s1
    | _, _ =>
      (.listFailed, addEvent {s1 with isSyncing := false} (.notice "Sync failed"))

end Honos

namespace Honos

/-! ### Small lemmas about the state components and the metadata map -/

@[simp] theorem events_addEvent (s : SyncState) (e : Event) :
    (addEvent s e).events = s.events ++ [e] := rfl

@[simp] theorem meta_addEvent (s : SyncState) (e : Event) :
    (addEvent s e).meta = s.meta := rfl

@[simp] theorem files_addEvent (s : SyncState) (e : Event) :
    (addEvent s e).files = s.files := rfl

@[simp] theorem folders_addEvent (s : SyncState) (e : Event) :
    (addEvent s e).folders = s.folders := rfl

@[simp] theorem clock_addEvent (s : SyncState) (e : Event) :
    (addEvent s e).clock = s.clock := rfl

@[simp] theorem isSyncing_addEvent (s : SyncState) (e : Event) :
    (addEvent s e).isSyncing = s.isSyncing := rfl

@[simp] theorem events_tick (s : SyncState) : (tick s).events = s.events := rfl

@[simp] theorem meta_tick (s : SyncState) : (tick s).meta = s.meta := rfl

@[simp] theorem files_tick (s : SyncState) : (tick s).files = s.files := rfl

@[simp] theorem folders_tick (s : SyncState) : (tick s).folders = s.folders := rfl

@[simp] theorem clock_tick (s : SyncState) : (tick s).clock = s.clock + 1 := rfl

@[simp] theorem events_vmodifyU (s : SyncState) (p c : String) :
    (vmodifyU s p c).events = s.events := rfl

@[simp] theorem meta_vmodifyU (s : SyncState) (p c : String) :
    (vmodifyU s p c).meta = s.meta := rfl

@[simp] theorem folders_vmodifyU (s : SyncState) (p c : String) :
    (vmodifyU s p c).folders = s.folders := rfl

@[simp] theorem clock_vmodifyU (s : SyncState) (p c : String) :
    (vmodifyU s p c).clock = s.clock + 1 := rfl

@[simp] theorem events_vcreateU (s : SyncState) (p c : String) :
    (vcreateU s p c).events = s.events := rfl

@[simp] theorem meta_vcreateU (s : SyncState) (p c : String) :
    (vcreateU s p c).meta = s.meta := rfl

@[simp] theorem folders_vcreateU (s : SyncState) (p c : String) :
    (vcreateU s p c).folders = s.folders := rfl

@[simp] theorem clock_vcreateU (s : SyncState) (p c : String) :
    (vcreateU s p c).clock = s.clock + 1 := rfl

@[simp] theorem files_vcreateU (s : SyncState) (p c : String) :
    (vcreateU s p c).files = s.files ++ [⟨p, c, s.clock⟩] := rfl

@[simp] theorem events_vcreateFolderU (s : SyncState) (p : String) :
    (vcreateFolderU s p).events = s.events := rfl

@[simp] theorem meta_vcreateFolderU (s : SyncState) (p : String) :
    (vcreateFolderU s p).meta = s.meta := rfl

@[simp] theorem files_vcreateFolderU (s : SyncState) (p : String) :
    (vcreateFolderU s p).files = s.files := rfl

@[simp] theorem clock_vcreateFolderU (s : SyncState) (p : String) :
    (vcreateFolderU s p).clock = s.clock + 1 := rfl

@[simp] theorem folders_vcreateFolderU (s : SyncState) (p : String) :
    (vcreateFolderU s p).folders = s.folders ++ [p] := rfl

@[simp] theorem events_saveMetaRec (s : SyncState) (p h : String) (r pr sz : Nat) (d : String) :
    (saveMetaRec s p h r pr sz d).events = s.events := rfl

@[simp] theorem files_saveMetaRec (s : SyncState) (p h : String) (r pr sz : Nat) (d : String) :
    (saveMetaRec s p h r pr sz d).files = s.files := rfl

@[simp] theorem folders_saveMetaRec (s : SyncState) (p h : String) (r pr sz : Nat) (d : String) :
    (saveMetaRec s p h r pr sz d).folders = s.folders := rfl

@[simp] theorem clock_saveMetaRec (s : SyncState) (p h : String) (r pr sz : Nat) (d : String) :
    (saveMetaRec s p h r pr sz d).clock = s.clock + 1 := rfl

@[simp] theorem meta_saveMetaRec (s : SyncState) (p h : String) (r pr sz : Nat) (d : String) :
    (saveMetaRec s p h r pr sz d).meta = mset s.meta p ⟨p, h, sz, r, pr, s.clock, d⟩ := rfl

theorem mget_mdel_self (l : List (String × LocalFileMetadata)) (p : String) :
    mget (mdel l p) p = none := by
  induction l with
  | nil => rfl
  | cons hd t ih =>
    obtain ⟨a, v⟩ := hd
    by_cases hap : a = p
    · simpa [mdel, hap] using ih
    · simpa [mdel, mget, hap] using ih

theorem mget_mdel_ne (l : List (String × LocalFileMetadata)) (p q : String) (h : p ≠ q) :
    mget (mdel l p) q = mget l q := by
  induction l with
  | nil => rfl
  | cons hd t ih =>
    obtain ⟨a, v⟩ := hd
    by_cases hap : a = p
    · subst hap
      have haq : a ≠ q := h
      simpa [mdel, mget, haq] using ih
    · by_cases haq : a = q
      · subst haq
        simp [mdel, mget, Ne.symm h]
      · simpa [mdel, mget, hap, haq] using ih

theorem mget_mset_self (l : List (String × LocalFileMetadata)) (p : String)
    (v : LocalFileMetadata) : mget (mset l p v) p = some v := by
  simp [mset, mget]

theorem mget_mset_ne (l : List (String × LocalFileMetadata)) (p q : String)
    (v : LocalFileMetadata) (h : p ≠ q) : mget (mset l p v) q = mget l q := by
  simp [mset, mget, h, mget_mdel_ne l p q h]

theorem vget_append (l1 l2 : List VFile) (p : String) :
    vget (l1 ++ l2) p = ((vget l1 p).rec (vget l2 p) (fun f => some f)) := by
  induction l1 with
  | nil => rfl
  | cons f t ih =>
    by_cases hf : f.path = p
    · simp [vget, hf]
    · simpa [vget, hf] using ih

theorem vget_mem : ∀ (l : List VFile) (p : String) (f : VFile),
    vget l p = some f → f ∈ l ∧ f.path = p := by
  intro l p
  induction l with
  | nil => intro f h; simp [vget] at h
  | cons g t ih =>
    intro f h
    by_cases hg : g.path = p
    · simp only [vget, if_pos hg, Option.some.injEq] at h
      subst h
      exact ⟨List.mem_cons_self g t, hg⟩
    · simp only [vget, if_neg hg] at h
      obtain ⟨hm, hp⟩ := ih f h
      exact ⟨List.mem_cons_of_mem g hm, hp⟩

end Honos

namespace Honos

/-! ### Conditional-state helper lemmas -/

@[simp] theorem meta_iteAddEvent (c : Prop) [Decidable c] (s : SyncState) (e : Event) :
    (if c then addEvent s e else s).meta = s.meta := by split <;> rfl

@[simp] theorem files_iteAddEvent (c : Prop) [Decidable c] (s : SyncState) (e : Event) :
    (if c then addEvent s e else s).files = s.files := by split <;> rfl

@[simp] theorem folders_iteAddEvent (c : Prop) [Decidable c] (s : SyncState) (e : Event) :
    (if c then addEvent s e else s).folders = s.folders := by split <;> rfl

@[simp] theorem clock_iteAddEvent (c : Prop) [Decidable c] (s : SyncState) (e : Event) :
    (if c then addEvent s e else s).clock = s.clock := by split <;> rfl

theorem events_iteAddEvent (c : Prop) [Decidable c] (s : SyncState) (e : Event) :
    (if c then addEvent s e else s).events = s.events ++ (if c then [e] else []) := by
  split <;> simp

@[simp] theorem meta_iteFolder (c : Prop) [Decidable c] (s : SyncState) (fp : String) :
    (if c then vcreateFolderU s fp else s).meta = s.meta := by split <;> rfl

@[simp] theorem files_iteFolder (c : Prop) [Decidable c] (s : SyncState) (fp : String) :
    (if c then vcreateFolderU s fp else s).files = s.files := by split <;> rfl

@[simp] theorem events_iteFolder (c : Prop) [Decidable c] (s : SyncState) (fp : String) :
    (if c then vcreateFolderU s fp else s).events = s.events := by split <;> rfl

@[simp] theorem vlookupAbs_addEvent (s : SyncState) (e : Event) (p : String) :
    vlookupAbs (addEvent s e) p = vlookupAbs s p := rfl

@[simp] theorem vlookupAbs_iteAddEvent (c : Prop) [Decidable c] (s : SyncState) (e : Event)
    (p : String) : vlookupAbs (if c then addEvent s e else s) p = vlookupAbs s p := by
  split <;> rfl

/-! ### Concrete fixtures used by witnesses and counterexamples -/

/-- A transport whose every call fails; used for concrete instantiation. -/
def nullNC : NetworkClient where
  listFiles := ⟨false, none, none⟩
  downloadFile := fun _ _ => ⟨false, none, none, false⟩
  uploadFile := fun _ _ _ => ⟨false, none, none, none⟩
  deleteFile := fun _ _ => ⟨false, false⟩
  attemptAutoMerge := fun _ => ⟨false, false, none⟩

/-- Concrete settings with a configured token. -/
def wSet : SyncPluginSettings := ⟨"token", "device-1"⟩

/-- The empty world. -/
def emptyState : SyncState := ⟨[], [], [], 0, false, []⟩

/-! ### C9 — busy gate -/

/-- C9: invoking `syncVault` while a pass is in flight (the in-flight flag
set; a configured token, as any in-flight pass presupposes) returns
immediately with the distinct `busy` outcome and appends exactly the busy
notice: the vault, metadata store and clock are untouched and no
transport call is made. -/
theorem C9_busy_signal (nc : NetworkClient) (set : SyncPluginSettings) (fuel : Nat)
    (silent : Bool) (s : SyncState) (htok : ¬ set.token = "") (h : s.isSyncing = true) :
    syncVault nc set fuel silent s =
      (.busy, addEvent s (.notice "Sync already in progress...")) := by
  simp [syncVault, htok, h]

/-- Witness for C9 at a concrete in-flight state. -/
theorem C9_busy_signal_witness :
    (¬ wSet.token = "") ∧ (SyncState.mk [] [] [] 0 true []).isSyncing = true ∧
    syncVault nullNC wSet 1 false ⟨[], [], [], 0, true, []⟩ =
      (.busy, addEvent ⟨[], [], [], 0, true, []⟩ (.notice "Sync already in progress...")) :=
  ⟨by decide, rfl, C9_busy_signal nullNC wSet 1 false ⟨[], [], [], 0, true, []⟩ (by decide) rfl⟩

/-! ### C7 — deletion always clears metadata -/

/-- C7: `deleteFile` on a path with an existing metadata record always
leaves the store with no record for that path, whether or not the server
reported a conflict on the delete. -/
theorem C7_delete_clears_metadata (nc : NetworkClient) (set : SyncPluginSettings)
    (path : String) (s : SyncState) (m : LocalFileMetadata)
    (hm : mget s.meta path = some m) :
    mget (deleteFileRun nc set path s).2.meta path = none := by
  simp only [deleteFileRun, meta_addEvent, meta_iteAddEvent]
  split
  · next h => exact absurd (hm ▸ h) (by simp)
  · simp [mget_mdel_self]

/-- Witness for C7: a concrete store with a record for `a.md`. -/
theorem C7_delete_clears_metadata_witness :
    mget [("a.md", LocalFileMetadata.mk "a.md" "h" 1 5 5 0 "d")] "a.md" =
      some (LocalFileMetadata.mk "a.md" "h" 1 5 5 0 "d") ∧
    mget (deleteFileRun nullNC wSet "a.md"
      ⟨[], [], [("a.md", ⟨"a.md", "h", 1, 5, 5, 0, "d"⟩)], 0, false, []⟩).2.meta "a.md" = none :=
  ⟨by decide, C7_delete_clears_metadata nullNC wSet "a.md"
    ⟨[], [], [("a.md", ⟨"a.md", "h", 1, 5, 5, 0, "d"⟩)], 0, false, []⟩
    ⟨"a.md", "h", 1, 5, 5, 0, "d"⟩ (by decide)⟩

end Honos

namespace Honos

/-! ### C3 — downward-phase download condition -/

/-- Recognizer for the instrumentation event marking a download attempt
on a given path. -/
def isDownloadAttempt (p : String) : Event → Bool
  | .netDownload q _ => decide (q = p)
  | _ => false

/-- Every run of `downloadFileRun` records the transport call it opens
with, whatever happens afterwards. -/
theorem downloadFileRun_events (nc : NetworkClient) (set : SyncPluginSettings)
    (p : String) (rev : Option Nat) (s : SyncState) :
    ∃ t, (downloadFileRun nc set p rev s).2.events =
      s.events ++ Event.netDownload p rev :: t := by
  unfold downloadFileRun
  cases hf : (nc.downloadFile p rev).file with
  | none => exact ⟨[], by simp [hf]⟩
  | some fi =>
    cases hc : (nc.downloadFile p rev).content with
    | none => exact ⟨[], by simp [hf, hc]⟩
    | some c =>
      by_cases hs : (nc.downloadFile p rev).success = true
      · refine ⟨(if (nc.downloadFile p rev).isConflict = true then
          [Event.notice ("Server marked as conflicted: " ++ p)] else []), ?_⟩
        cases hafp : vlookupAbs s p <;>
          simp [hf, hc, hs, hafp, events_iteAddEvent]
      · simp only [Bool.not_eq_true] at hs
        exact ⟨[], by simp [hf, hc, hs]⟩

/-- C3: in the downward phase a download is attempted for a remote
descriptor exactly when no metadata record exists for its path or the
listed revision strictly exceeds the stored one; in particular, with a
record present and the remote revision equal to the stored one, no
download occurs — the decision never consults content hashes. -/
theorem C3_download_iff_newer (nc : NetworkClient) (set : SyncPluginSettings)
    (dl fl : Nat) (s : SyncState) (r : RemoteFile) (hev : s.events = []) :
    (((downStep nc set (dl, fl, s) r).2.2.events.any (isDownloadAttempt r.path)) = true
      ↔ (mget s.meta r.path = none ∨
         r.revision.getD 0 > ((mget s.meta r.path).map (fun m => m.revision)).getD 0))
    ∧ (∀ m, mget s.meta r.path = some m → r.revision.getD 0 = m.revision →
        ((downStep nc set (dl, fl, s) r).2.2.events.any (isDownloadAttempt r.path)) = false) := by
  constructor
  · constructor
    · intro hany
      by_cases hcond : (mget s.meta r.path = none ∨
          r.revision.getD 0 > ((mget s.meta r.path).map (fun m => m.revision)).getD 0)
      · exact hcond
      · exfalso
        have hstep : downStep nc set (dl, fl, s) r = (dl, fl, s) := by
          simp only [downStep]
          exact if_neg hcond
        rw [hstep] at hany
        simp [hev] at hany
    · intro hcond
      have hstep : (downStep nc set (dl, fl, s) r).2.2 =
          (downloadFileRun nc set r.path (some (r.revision.getD 0)) s).2 := by
        simp only [downStep, if_pos hcond]
        split <;> rfl
      rw [hstep]
      obtain ⟨t, ht⟩ := downloadFileRun_events nc set r.path (some (r.revision.getD 0)) s
      rw [ht, hev]
      simp [isDownloadAttempt]
  · intro m hm heq
    have hcond : ¬ (mget s.meta r.path = none ∨
        r.revision.getD 0 > ((mget s.meta r.path).map (fun m => m.revision)).getD 0) := by
      rw [hm]
      simp [← heq]
    have hstep : downStep nc set (dl, fl, s) r = (dl, fl, s) := by
      simp only [downStep]
      exact if_neg hcond
    rw [hstep]
    simp [hev]

/-- Witness for C3 at a concrete state: a fresh remote path (no record,
download attempted) and a matching-revision record under equality of
revisions (no attempt). -/
theorem C3_download_iff_newer_witness :
    (SyncState.mk [] [] [] 0 false []).events = [] ∧
    ((downStep nullNC wSet (0, 0, ⟨[], [], [], 0, false, []⟩)
        ⟨"a.md", some 1, "h", 1⟩).2.2.events.any (isDownloadAttempt "a.md")) = true ∧
    ((downStep nullNC wSet
        (0, 0, ⟨[], [], [("b.md", ⟨"b.md", "h", 1, 4, 4, 0, "d"⟩)], 0, false, []⟩)
        ⟨"b.md", some 4, "h", 1⟩).2.2.events.any (isDownloadAttempt "b.md")) = false :=
  ⟨rfl,
   (C3_download_iff_newer nullNC wSet 0 0 ⟨[], [], [], 0, false, []⟩
      ⟨"a.md", some 1, "h", 1⟩ rfl).1.mpr (Or.inl (by decide)),
   (C3_download_iff_newer nullNC wSet 0 0
      ⟨[], [], [("b.md", ⟨"b.md", "h", 1, 4, 4, 0, "d"⟩)], 0, false, []⟩
      ⟨"b.md", some 4, "h", 1⟩ rfl).2 ⟨"b.md", "h", 1, 4, 4, 0, "d"⟩ (by decide) (by decide)⟩

end Honos

namespace Honos

/-! ### C2 — metadata written by a downward download -/

/-- A transport answering downloads with a descriptor whose revision (7)
and parentRevision (3) differ from the requested revision (5). -/
def c2NC : NetworkClient where
  listFiles := ⟨true, some [⟨"a.md", some 5, "h", 1⟩], none⟩
  downloadFile := fun _ _ => ⟨true, some ⟨"sh", some 7, some 3, 9⟩, some "x", false⟩
  uploadFile := fun _ _ _ => ⟨false, none, some "err", none⟩
  deleteFile := fun _ _ => ⟨true, false⟩
  attemptAutoMerge := fun _ => ⟨false, true, none⟩

/-- C2 counterexample: the downward phase downloads descriptor `a.md` at
revision 5 and the download succeeds, yet the stored record carries the
response's `revision` and `parentRevision` (7 and 3), not the requested
revision — the claim's `revision = parentRevision = remoteRev` fails. -/
theorem C2_counterexample :
    ((mget (downStep c2NC wSet (0, 0, emptyState) ⟨"a.md", some 5, "h", 1⟩).2.2.meta
        "a.md").map (fun m => (m.revision, m.parentRevision))) = some (7, 3) ∧
    ¬ ((7, 3) = ((5 : Nat), (5 : Nat))) := ⟨by decide, by decide⟩

/-- C2 amended: after a download performed for a descriptor at revision
`rev`, provided the transport's response echoes the requested revision
and carries no divergent `parentRevision` (absent, zero, or equal), and
the path does not name an existing folder, the stored record has
`revision = parentRevision = rev` and its `lastSyncedAt` is the clock
instant of the metadata write (one tick before the state's clock). -/
theorem C2_download_sets_revision (nc : NetworkClient) (set : SyncPluginSettings)
    (path : String) (rev : Nat) (s : SyncState) (fi : FileInfo)
    (hs : (nc.downloadFile path (some rev)).success = true)
    (hfi : (nc.downloadFile path (some rev)).file = some fi)
    (hc : (nc.downloadFile path (some rev)).content.isSome = true)
    (hecho : fi.revision.getD 0 = rev)
    (hpar : fi.parentRevision.getD 0 = 0 ∨ fi.parentRevision.getD 0 = rev)
    (hnf : vlookupAbs s path ≠ .folder) :
    (downloadFileRun nc set path (some rev) s).1 = true ∧
    ∃ m, mget (downloadFileRun nc set path (some rev) s).2.meta path = some m ∧
      m.revision = rev ∧ m.parentRevision = rev ∧
      m.lastSyncedAt + 1 = (downloadFileRun nc set path (some rev) s).2.clock := by
  obtain ⟨c, hc2⟩ := Option.isSome_iff_exists.mp hc
  have hjs : jsOr (fi.parentRevision.getD 0) (fi.revision.getD 0) = rev := by
    rcases hpar with h0 | hr
    · simp [jsOr, h0, hecho]
    · rw [hr, hecho]
      simp [jsOr]
  have hchar : (downloadFileRun nc set path (some rev) s).1 = true ∧
      mget (downloadFileRun nc set path (some rev) s).2.meta path =
        some ⟨path, fi.hash, fi.size, fi.revision.getD 0,
          jsOr (fi.parentRevision.getD 0) (fi.revision.getD 0),
          (downloadFileRun nc set path (some rev) s).2.clock - 1, set.deviceId⟩ ∧
      1 ≤ (downloadFileRun nc set path (some rev) s).2.clock := by
    unfold downloadFileRun
    cases hafp : vlookupAbs s path with
    | folder => exact absurd hafp hnf
    | file f =>
      refine ⟨by simp [hfi, hc2, hs, hafp], ?_, by simp [hfi, hc2, hs, hafp]⟩
      simp [hfi, hc2, hs, hafp, mget_mset_self]
    | missing =>
      refine ⟨by simp [hfi, hc2, hs, hafp], ?_, by simp [hfi, hc2, hs, hafp]⟩
      simp [hfi, hc2, hs, hafp, mget_mset_self]
  obtain ⟨h1, h2, h3⟩ := hchar
  refine ⟨h1, _, h2, hecho, hjs, ?_⟩
  simp only
  omega

/-- Witness for the amended C2: a well-behaved transport echoing
revision 5 on a fresh path. -/
theorem C2_download_sets_revision_witness :
    ((nullNC.downloadFile "w.md" (some 5)).success = false) ∧
    (downloadFileRun
        ⟨⟨true, some [], none⟩, fun _ v => ⟨true, some ⟨"h", v, none, 2⟩, some "x", false⟩,
         fun _ _ _ => ⟨false, none, none, none⟩, fun _ _ => ⟨true, false⟩,
         fun _ => ⟨false, false, none⟩⟩ wSet "w.md" (some 5) emptyState).1 = true ∧
    ∃ m, mget (downloadFileRun
        ⟨⟨true, some [], none⟩, fun _ v => ⟨true, some ⟨"h", v, none, 2⟩, some "x", false⟩,
         fun _ _ _ => ⟨false, none, none, none⟩, fun _ _ => ⟨true, false⟩,
         fun _ => ⟨false, false, none⟩⟩ wSet "w.md" (some 5) emptyState).2.meta "w.md" = some m ∧
      m.revision = 5 ∧ m.parentRevision = 5 ∧
      m.lastSyncedAt + 1 = (downloadFileRun
        ⟨⟨true, some [], none⟩, fun _ v => ⟨true, some ⟨"h", v, none, 2⟩, some "x", false⟩,
         fun _ _ _ => ⟨false, none, none, none⟩, fun _ _ => ⟨true, false⟩,
         fun _ => ⟨false, false, none⟩⟩ wSet "w.md" (some 5) emptyState).2.clock :=
  ⟨by decide,
   C2_download_sets_revision _ wSet "w.md" 5 emptyState ⟨"h", some 5, none, 2⟩
     rfl rfl rfl rfl (Or.inl rfl) (by decide)⟩

/-! ### C4 — metadata written by a successful upload -/

/-- Characterization of a plainly successful `uploadFile`: when the file
exists and the transport accepts, the run returns `true` and stores the
response revision as both `revision` and `parentRevision`. -/
theorem uploadFileGo_success (nc : NetworkClient) (set : SyncPluginSettings)
    (fuel : Nat) (path : String) (s : SyncState) (file : VFile)
    (hf : vget s.files path = some file)
    (hs : (nc.uploadFile path file.content ⟨metaRevD s.meta path, set.deviceId⟩).success = true) :
    uploadFileGo nc set fuel path s =
      (true, saveMetaRec (addEvent s (.netUpload path)) path
        (((nc.uploadFile path file.content
            ⟨metaRevD s.meta path, set.deviceId⟩).file.map (fun f => f.hash)).getD "")
        (((nc.uploadFile path file.content
            ⟨metaRevD s.meta path, set.deviceId⟩).file.map (fun f => f.revision.getD 0)).getD 0)
        (((nc.uploadFile path file.content
            ⟨metaRevD s.meta path, set.deviceId⟩).file.map (fun f => f.revision.getD 0)).getD 0)
        file.content.length set.deviceId) := by
  simp [uploadFileGo, hf, hs]

/-- C4: after every successful upload the stored record carries the
server-assigned revision of the upload response as both `revision` and
`parentRevision`, and `lastSyncedAt` is refreshed to the completion
instant (one tick before the resulting clock). -/
theorem C4_upload_sets_revision (nc : NetworkClient) (set : SyncPluginSettings)
    (fuel : Nat) (path : String) (s : SyncState) (file : VFile) (uf : UploadedFile)
    (hf : vget s.files path = some file)
    (hs : (nc.uploadFile path file.content ⟨metaRevD s.meta path, set.deviceId⟩).success = true)
    (hfile : (nc.uploadFile path file.content
        ⟨metaRevD s.meta path, set.deviceId⟩).file = some uf) :
    (uploadFileGo nc set fuel path s).1 = true ∧
    ∃ m, mget (uploadFileGo nc set fuel path s).2.meta path = some m ∧
      m.revision = uf.revision.getD 0 ∧ m.parentRevision = uf.revision.getD 0 ∧
      m.lastSyncedAt + 1 = (uploadFileGo nc set fuel path s).2.clock := by
  rw [uploadFileGo_success nc set fuel path s file hf hs]
  refine ⟨rfl, ⟨path,
    ((nc.uploadFile path file.content ⟨metaRevD s.meta path, set.deviceId⟩).file.map
      (fun f => f.hash)).getD "",
    file.content.length,
    ((nc.uploadFile path file.content ⟨metaRevD s.meta path, set.deviceId⟩).file.map
      (fun f => f.revision.getD 0)).getD 0,
    ((nc.uploadFile path file.content ⟨metaRevD s.meta path, set.deviceId⟩).file.map
      (fun f => f.revision.getD 0)).getD 0,
    s.clock, set.deviceId⟩, ?_, ?_, ?_, ?_⟩
  · simp [mget_mset_self]
  · simp [hfile]
  · simp [hfile]
  · simp

/-- Witness for C4: a transport that accepts the upload with server
revision 9. -/
theorem C4_upload_sets_revision_witness :
    (vget [VFile.mk "a.md" "body" 0] "a.md" = some ⟨"a.md", "body", 0⟩) ∧
    (uploadFileGo
        ⟨⟨true, some [], none⟩, fun _ _ => ⟨false, none, none, false⟩,
         fun _ _ _ => ⟨true, some ⟨"uh", some 9⟩, none, none⟩, fun _ _ => ⟨true, false⟩,
         fun _ => ⟨false, false, none⟩⟩ wSet 1 "a.md"
        ⟨[⟨"a.md", "body", 0⟩], [], [], 0, false, []⟩).1 = true ∧
    ∃ m, mget (uploadFileGo
        ⟨⟨true, some [], none⟩, fun _ _ => ⟨false, none, none, false⟩,
         fun _ _ _ => ⟨true, some ⟨"uh", some 9⟩, none, none⟩, fun _ _ => ⟨true, false⟩,
         fun _ => ⟨false, false, none⟩⟩ wSet 1 "a.md"
        ⟨[⟨"a.md", "body", 0⟩], [], [], 0, false, []⟩).2.meta "a.md" = some m ∧
      m.revision = 9 ∧
      m.parentRevision = 9 ∧
      m.lastSyncedAt + 1 = (uploadFileGo
        ⟨⟨true, some [], none⟩, fun _ _ => ⟨false, none, none, false⟩,
         fun _ _ _ => ⟨true, some ⟨"uh", some 9⟩, none, none⟩, fun _ _ => ⟨true, false⟩,
         fun _ => ⟨false, false, none⟩⟩ wSet 1 "a.md"
        ⟨[⟨"a.md", "body", 0⟩], [], [], 0, false, []⟩).2.clock :=
  ⟨by decide,
   C4_upload_sets_revision _ wSet 1 "a.md" ⟨[⟨"a.md", "body", 0⟩], [], [], 0, false, []⟩
     ⟨"a.md", "body", 0⟩ ⟨"uh", some 9⟩ (by decide) rfl rfl⟩

end Honos

namespace Honos

/-! ### C8 — monotonicity of the stored revision -/

/-- The transport echoes the requested revision in the download
response's descriptor (a well-behaved server). -/
def EchoDownload (nc : NetworkClient) : Prop :=
  ∀ p v fi, (nc.downloadFile p (some v)).file = some fi → fi.revision.getD 0 = v

/-- A skipped downward iteration leaves the accumulator untouched. -/
theorem downStep_skip (nc : NetworkClient) (set : SyncPluginSettings)
    (acc : Nat × Nat × SyncState) (r : RemoteFile)
    (hcond : ¬ (mget acc.2.2.meta r.path = none ∨
      r.revision.getD 0 > ((mget acc.2.2.meta r.path).map (fun m => m.revision)).getD 0)) :
    downStep nc set acc r = acc := by
  simp only [downStep]
  exact if_neg hcond

/-- An attempting downward iteration carries the download's resulting
state, whether or not the download succeeded. -/
theorem downStep_state (nc : NetworkClient) (set : SyncPluginSettings)
    (acc : Nat × Nat × SyncState) (r : RemoteFile)
    (hcond : mget acc.2.2.meta r.path = none ∨
      r.revision.getD 0 > ((mget acc.2.2.meta r.path).map (fun m => m.revision)).getD 0) :
    (downStep nc set acc r).2.2 =
      (downloadFileRun nc set r.path (some (r.revision.getD 0)) acc.2.2).2 := by
  simp only [downStep, if_pos hcond]
  split <;> rfl

/-- A download that performs no write (failed response, missing
descriptor or content, or a folder in the way) leaves the metadata store
untouched. -/
theorem downloadFileRun_nowrite (nc : NetworkClient) (set : SyncPluginSettings)
    (path : String) (rev : Option Nat) (s : SyncState)
    (h : (nc.downloadFile path rev).success = false ∨
      (nc.downloadFile path rev).file = none ∨
      (nc.downloadFile path rev).content = none ∨ vlookupAbs s path = .folder) :
    (downloadFileRun nc set path rev s).2.meta = s.meta := by
  unfold downloadFileRun
  cases hf : (nc.downloadFile path rev).file with
  | none => simp [hf]
  | some fi =>
    cases hc : (nc.downloadFile path rev).content with
    | none => simp [hf, hc]
    | some c =>
      by_cases hs : (nc.downloadFile path rev).success = true
      · cases hafp : vlookupAbs s path with
        | file f =>
          rcases h with h | h | h | h
          · rw [hs] at h; cases h
          · rw [hf] at h; cases h
          · rw [hc] at h; cases h
          · rw [hafp] at h; cases h
        | missing =>
          rcases h with h | h | h | h
          · rw [hs] at h; cases h
          · rw [hf] at h; cases h
          · rw [hc] at h; cases h
          · rw [hafp] at h; cases h
        | folder => simp [hf, hc, hs, hafp]
      · simp only [Bool.not_eq_true] at hs
        simp [hf, hc, hs]

/-- A download that does write (successful response with descriptor and
content, no folder in the way) returns `true`, stores the descriptor's
revision data under the path with `lastSyncedAt` one tick before the
resulting clock, and leaves every other path's record untouched. -/
theorem downloadFileRun_write (nc : NetworkClient) (set : SyncPluginSettings)
    (path : String) (rev : Option Nat) (s : SyncState) (fi : FileInfo) (c : String)
    (hs : (nc.downloadFile path rev).success = true)
    (hfi : (nc.downloadFile path rev).file = some fi)
    (hc2 : (nc.downloadFile path rev).content = some c)
    (hnf : vlookupAbs s path ≠ .folder) :
    (downloadFileRun nc set path rev s).1 = true ∧
    mget (downloadFileRun nc set path rev s).2.meta path =
      some ⟨path, fi.hash, fi.size, fi.revision.getD 0,
        jsOr (fi.parentRevision.getD 0) (fi.revision.getD 0),
        (downloadFileRun nc set path rev s).2.clock - 1, set.deviceId⟩ ∧
    1 ≤ (downloadFileRun nc set path rev s).2.clock ∧
    ∀ q, path ≠ q →
      mget (downloadFileRun nc set path rev s).2.meta q = mget s.meta q := by
  unfold downloadFileRun
  cases hafp : vlookupAbs s path with
  | folder => exact absurd hafp hnf
  | file f =>
    refine ⟨by simp [hfi, hc2, hs, hafp], ?_, by simp [hfi, hc2, hs, hafp], ?_⟩
    · simp [hfi, hc2, hs, hafp, mget_mset_self]
    · intro q hq
      simp [hfi, hc2, hs, hafp, mget_mset_ne _ _ _ _ hq]
  | missing =>
    refine ⟨by simp [hfi, hc2, hs, hafp], ?_, by simp [hfi, hc2, hs, hafp], ?_⟩
    · simp [hfi, hc2, hs, hafp, mget_mset_self]
    · intro q hq
      simp [hfi, hc2, hs, hafp, mget_mset_ne _ _ _ _ hq]

/-- A downward-phase iteration never decreases any path's stored
revision, given an echoing transport. -/
theorem downStep_meta_mono (nc : NetworkClient) (set : SyncPluginSettings)
    (acc : Nat × Nat × SyncState) (r : RemoteFile) (hecho : EchoDownload nc)
    (p : String) (m : LocalFileMetadata) (hm : mget acc.2.2.meta p = some m) :
    ∃ m2, mget (downStep nc set acc r).2.2.meta p = some m2 ∧ m.revision ≤ m2.revision := by
  by_cases hcond : (mget acc.2.2.meta r.path = none ∨
      r.revision.getD 0 > ((mget acc.2.2.meta r.path).map (fun m => m.revision)).getD 0)
  · rw [downStep_state nc set acc r hcond]
    by_cases hs : (nc.downloadFile r.path (some (r.revision.getD 0))).success = true
    · cases hf : (nc.downloadFile r.path (some (r.revision.getD 0))).file with
      | none =>
        rw [downloadFileRun_nowrite nc set r.path _ acc.2.2 (Or.inr (Or.inl hf))]
        exact ⟨m, hm, le_refl _⟩
      | some fi =>
        cases hc : (nc.downloadFile r.path (some (r.revision.getD 0))).content with
        | none =>
          rw [downloadFileRun_nowrite nc set r.path _ acc.2.2 (Or.inr (Or.inr (Or.inl hc)))]
          exact ⟨m, hm, le_refl _⟩
        | some c =>
          cases hafp : vlookupAbs acc.2.2 r.path with
          | folder =>
            rw [downloadFileRun_nowrite nc set r.path _ acc.2.2
              (Or.inr (Or.inr (Or.inr hafp)))]
            exact ⟨m, hm, le_refl _⟩
          | file f =>
            obtain ⟨-, hset, -, hother⟩ :=
              downloadFileRun_write nc set r.path (some (r.revision.getD 0)) acc.2.2 fi c
                hs hf hc (by simp [hafp])
            by_cases hpq : r.path = p
            · subst hpq
              refine ⟨_, hset, ?_⟩
              have hrev := hecho r.path (r.revision.getD 0) fi hf
              show m.revision ≤ fi.revision.getD 0
              rcases hcond with h0 | hgt
              · rw [hm] at h0; cases h0
              · rw [hm] at hgt
                simp at hgt
                omega
            · rw [hother p hpq]
              exact ⟨m, hm, le_refl _⟩
          | missing =>
            obtain ⟨-, hset, -, hother⟩ :=
              downloadFileRun_write nc set r.path (some (r.revision.getD 0)) acc.2.2 fi c
                hs hf hc (by simp [hafp])
            by_cases hpq : r.path = p
            · subst hpq
              refine ⟨_, hset, ?_⟩
              have hrev := hecho r.path (r.revision.getD 0) fi hf
              show m.revision ≤ fi.revision.getD 0
              rcases hcond with h0 | hgt
              · rw [hm] at h0; cases h0
              · rw [hm] at hgt
                simp at hgt
                omega
            · rw [hother p hpq]
              exact ⟨m, hm, le_refl _⟩
    · simp only [Bool.not_eq_true] at hs
      rw [downloadFileRun_nowrite nc set r.path _ acc.2.2 (Or.inl hs)]
      exact ⟨m, hm, le_refl _⟩
  · rw [downStep_skip nc set acc r hcond]
    exact ⟨m, hm, le_refl _⟩

end Honos

namespace Honos

/-- C8 counterexample: with a record at revision 5 for `a.md`, the
standalone `downloadFile` invoked with the explicit older revision 3
succeeds (even against an echoing transport) and regresses the stored
revision from 5 to 3 — the claim fails for standalone downloads. -/
theorem C8_counterexample :
    ((mget [("a.md", LocalFileMetadata.mk "a.md" "h" 1 5 5 0 "d")] "a.md").map
      (fun m => m.revision)) = some 5 ∧
    (downloadFileRun
        ⟨⟨true, some [], none⟩, fun _ v => ⟨true, some ⟨"h2", v, none, 1⟩, some "old", false⟩,
         fun _ _ _ => ⟨false, none, none, none⟩, fun _ _ => ⟨true, false⟩,
         fun _ => ⟨false, false, none⟩⟩ wSet "a.md" (some 3)
        ⟨[⟨"a.md", "x", 0⟩], [], [("a.md", ⟨"a.md", "h", 1, 5, 5, 0, "d"⟩)], 0, false, []⟩).1
      = true ∧
    ((mget (downloadFileRun
        ⟨⟨true, some [], none⟩, fun _ v => ⟨true, some ⟨"h2", v, none, 1⟩, some "old", false⟩,
         fun _ _ _ => ⟨false, none, none, none⟩, fun _ _ => ⟨true, false⟩,
         fun _ => ⟨false, false, none⟩⟩ wSet "a.md" (some 3)
        ⟨[⟨"a.md", "x", 0⟩], [], [("a.md", ⟨"a.md", "h", 1, 5, 5, 0, "d"⟩)], 0, false, []⟩).2.meta
      "a.md").map (fun m => m.revision)) = some 3 ∧ (3 : Nat) < 5 :=
  ⟨by decide, by decide, by decide, by decide⟩

/-- C8 amended: the stored revision is monotone across (a) every
downward-phase iteration, given an echoing transport — the phase's
strict revision guard protects the store — and (b) every successful
upload whose server-assigned revision is at least the previously stored
one (as an optimistic-concurrency server assigns when it accepts).  The
standalone `downloadFile` with an explicit older revision argument can
regress the stored revision (see the counterexample). -/
theorem C8_revision_monotone :
    (∀ (nc : NetworkClient) (set : SyncPluginSettings) (acc : Nat × Nat × SyncState)
       (r : RemoteFile) (p : String) (m : LocalFileMetadata), EchoDownload nc →
       mget acc.2.2.meta p = some m →
       ∃ m2, mget (downStep nc set acc r).2.2.meta p = some m2 ∧ m.revision ≤ m2.revision) ∧
    (∀ (nc : NetworkClient) (set : SyncPluginSettings) (fuel : Nat) (path : String)
       (s : SyncState) (file : VFile) (m : LocalFileMetadata),
       vget s.files path = some file → mget s.meta path = some m →
       (nc.uploadFile path file.content ⟨metaRevD s.meta path, set.deviceId⟩).success = true →
       m.revision ≤ (((nc.uploadFile path file.content
           ⟨metaRevD s.meta path, set.deviceId⟩).file.map (fun f => f.revision.getD 0)).getD 0) →
       ∃ m2, mget (uploadFileGo nc set fuel path s).2.meta path = some m2 ∧
         m.revision ≤ m2.revision) := by
  constructor
  · intro nc set acc r p m hecho hm
    exact downStep_meta_mono nc set acc r hecho p m hm
  · intro nc set fuel path s file m hf hm hs hge
    rw [uploadFileGo_success nc set fuel path s file hf hs]
    exact ⟨_, mget_mset_self _ _ _, hge⟩

/-- Witness for the amended C8: a concrete downward iteration raising
revision 4 to 6, and a concrete upload raising it to 9. -/
theorem C8_revision_monotone_witness :
    (∃ m2, mget (downStep
        ⟨⟨true, some [], none⟩, fun _ v => ⟨true, some ⟨"h2", v, none, 1⟩, some "new", false⟩,
         fun _ _ _ => ⟨true, some ⟨"uh", some 9⟩, none, none⟩, fun _ _ => ⟨true, false⟩,
         fun _ => ⟨false, false, none⟩⟩ wSet
        (0, 0, ⟨[⟨"a.md", "x", 0⟩], [], [("a.md", ⟨"a.md", "h", 1, 4, 4, 0, "d"⟩)], 0, false, []⟩)
        ⟨"a.md", some 6, "h", 1⟩).2.2.meta "a.md" = some m2 ∧ 4 ≤ m2.revision) ∧
    (∃ m2, mget (uploadFileGo
        ⟨⟨true, some [], none⟩, fun _ v => ⟨true, some ⟨"h2", v, none, 1⟩, some "new", false⟩,
         fun _ _ _ => ⟨true, some ⟨"uh", some 9⟩, none, none⟩, fun _ _ => ⟨true, false⟩,
         fun _ => ⟨false, false, none⟩⟩ wSet 1 "a.md"
        ⟨[⟨"a.md", "x", 0⟩], [], [("a.md", ⟨"a.md", "h", 1, 4, 4, 0, "d"⟩)], 0, false, []⟩).2.meta
      "a.md" = some m2 ∧ 4 ≤ m2.revision) :=
  ⟨C8_revision_monotone.1
      ⟨⟨true, some [], none⟩, fun _ v => ⟨true, some ⟨"h2", v, none, 1⟩, some "new", false⟩,
       fun _ _ _ => ⟨true, some ⟨"uh", some 9⟩, none, none⟩, fun _ _ => ⟨true, false⟩,
       fun _ => ⟨false, false, none⟩⟩ wSet
      (0, 0, ⟨[⟨"a.md", "x", 0⟩], [], [("a.md", ⟨"a.md", "h", 1, 4, 4, 0, "d"⟩)], 0, false, []⟩)
      ⟨"a.md", some 6, "h", 1⟩ "a.md" ⟨"a.md", "h", 1, 4, 4, 0, "d"⟩
      (fun p v fi hfi => by
        simp only [Option.some.injEq] at hfi
        rw [← hfi]
        rfl)
      (by decide),
   C8_revision_monotone.2
      ⟨⟨true, some [], none⟩, fun _ v => ⟨true, some ⟨"h2", v, none, 1⟩, some "new", false⟩,
       fun _ _ _ => ⟨true, some ⟨"uh", some 9⟩, none, none⟩, fun _ _ => ⟨true, false⟩,
       fun _ => ⟨false, false, none⟩⟩ wSet 1 "a.md"
      ⟨[⟨"a.md", "x", 0⟩], [], [("a.md", ⟨"a.md", "h", 1, 4, 4, 0, "d"⟩)], 0, false, []⟩
      ⟨"a.md", "x", 0⟩ ⟨"a.md", "h", 1, 4, 4, 0, "d"⟩ (by decide) (by decide) rfl (by decide)⟩

/-! ### C10 — single-file operations never throw -/

/-- C10: the single-file operations are total: `uploadFile`'s try-block
body (`uploadFileE`, whose only throwing primitive in the embedding is
the vault read) has every error turned into a `false` return by the
catch, and `downloadFileRun`/`deleteFileRun` return a boolean outcome on
every input. -/
theorem C10_ops_total (nc : NetworkClient) (set : SyncPluginSettings) (fuel : Nat)
    (path : String) (rev : Option Nat) (s : SyncState) :
    (∀ e, uploadFileE nc set fuel path s = .error e →
      (uploadFileGo nc set fuel path s).1 = false) ∧
    (∃ b t, downloadFileRun nc set path rev s = (b, t)) ∧
    (∃ b t, deleteFileRun nc set path s = (b, t)) := by
  refine ⟨?_, ⟨_, _, rfl⟩, ⟨_, _, rfl⟩⟩
  intro e he
  cases hv : vget s.files path with
  | none => simp [uploadFileGo, hv]
  | some f => simp [uploadFileE, hv] at he

/-- Witness for C10: on a vault without the file, the try-block body
errors and the caught operation reports `false`. -/
theorem C10_ops_total_witness :
    uploadFileE nullNC wSet 1 "missing.md" emptyState = .error "vault read failed" ∧
    (uploadFileGo nullNC wSet 1 "missing.md" emptyState).1 = false :=
  ⟨rfl, (C10_ops_total nullNC wSet 1 "missing.md" none emptyState).1
    "vault read failed" rfl⟩

end Honos

namespace Honos

/-! ### C5 — conflict routing on upload rejection -/

theorem prefix_addEvent (s : SyncState) (e : Event) : s.events <+: (addEvent s e).events :=
  ⟨[e], rfl⟩

/-- `vcreateE` succeeds exactly by performing the unchecked create on a
missing path. -/
theorem vcreateE_ok (s : SyncState) (p c : String) (s1 : SyncState)
    (h : vcreateE s p c = .ok s1) : s1 = vcreateU s p c ∧ vlookupAbs s p = .missing := by
  unfold vcreateE at h
  split at h
  · next hl => injection h with h2; exact ⟨h2.symm, hl⟩
  · cases h

/-- Manual resolution only appends to the event trace. -/
theorem handleManualRun_events_extends (path lc sc : String) (s : SyncState) :
    s.events <+: (handleManualRun path lc sc s).events := by
  unfold handleManualRun
  dsimp only
  split
  · next s1 heq =>
    obtain ⟨h1, -⟩ := vcreateE_ok _ _ _ _ heq
    subst h1
    unfold finishManual
    refine List.IsPrefix.trans ?_ (prefix_addEvent _ _)
    rw [events_vmodifyU, events_vcreateU]
    exact prefix_addEvent _ _
  · next heq =>
    split
    · next s1 heq2 =>
      obtain ⟨h1, -⟩ := vcreateE_ok _ _ _ _ heq2
      subst h1
      unfold finishManual
      refine List.IsPrefix.trans ?_ (prefix_addEvent _ _)
      rw [events_vmodifyU, events_vcreateU]
      exact prefix_addEvent _ _
    · next heq2 =>
      refine List.IsPrefix.trans ?_ (prefix_addEvent _ _)
      refine List.IsPrefix.trans ?_ (prefix_addEvent _ _)
      exact prefix_addEvent _ _

/-- The conflict handler records its invocation first and afterwards only
appends to the event trace, provided its merge-success callback does. -/
theorem handleConflictWith_events_extends (nc : NetworkClient)
    (cb : String → SyncState → Bool × SyncState)
    (hcb : ∀ p t, t.events <+: (cb p t).2.events)
    (path : String) (c : Option ConflictInfo) (s : SyncState) :
    (addEvent s (.handleConflictCalled path c)).events <+:
      (handleConflictWith nc cb path c s).events := by
  unfold handleConflictWith
  cases c with
  | none => exact prefix_addEvent _ _
  | some conflict =>
    dsimp only
    by_cases hpr : conflict.yourParentRevision > 0
    · rw [if_pos hpr]
      have hfv : (addEvent (addEvent (addEvent
          (addEvent s (Event.handleConflictCalled path (some conflict)))
          (Event.notice ("Conflict detected, attempting auto-merge: " ++ path)))
          (Event.netDownload path (some conflict.currentRevision)))
          (Event.netDownload path (some conflict.yourParentRevision))).files = s.files := rfl
      rw [hfv]
      cases hv : vget s.files path with
      | none =>
        simp only [hv]
        refine List.IsPrefix.trans ?_ (prefix_addEvent _ _)
        refine List.IsPrefix.trans ?_ (prefix_addEvent _ _)
        refine List.IsPrefix.trans ?_ (prefix_addEvent _ _)
        refine List.IsPrefix.trans ?_ (prefix_addEvent _ _)
        exact prefix_addEvent _ _
      | some file =>
        simp only [hv]
        split
        · refine List.IsPrefix.trans ?_ (hcb path _)
          rw [events_vmodifyU]
          refine List.IsPrefix.trans ?_ (prefix_addEvent _ _)
          refine List.IsPrefix.trans ?_ (prefix_addEvent _ _)
          refine List.IsPrefix.trans ?_ (prefix_addEvent _ _)
          refine List.IsPrefix.trans ?_ (prefix_addEvent _ _)
          exact prefix_addEvent _ _
        · refine List.IsPrefix.trans ?_ (handleManualRun_events_extends _ _ _ _)
          refine List.IsPrefix.trans ?_ (prefix_addEvent _ _)
          refine List.IsPrefix.trans ?_ (prefix_addEvent _ _)
          refine List.IsPrefix.trans ?_ (prefix_addEvent _ _)
          exact prefix_addEvent _ _
    · rw [if_neg hpr]
      have hfv : (addEvent (addEvent
          (addEvent s (Event.handleConflictCalled path (some conflict)))
          (Event.notice ("Conflict detected, attempting auto-merge: " ++ path)))
          (Event.netDownload path (some conflict.currentRevision))).files = s.files := rfl
      rw [hfv]
      cases hv : vget s.files path with
      | none =>
        simp only [hv]
        refine List.IsPrefix.trans ?_ (prefix_addEvent _ _)
        refine List.IsPrefix.trans ?_ (prefix_addEvent _ _)
        refine List.IsPrefix.trans ?_ (prefix_addEvent _ _)
        exact prefix_addEvent _ _
      | some file =>
        simp only [hv]
        refine List.IsPrefix.trans ?_ (handleManualRun_events_extends _ _ _ _)
        refine List.IsPrefix.trans ?_ (prefix_addEvent _ _)
        exact prefix_addEvent _ _

end Honos

namespace Honos

/-- `uploadFile` only appends to the event trace, at every fuel level. -/
theorem uploadFileGo_events_extends (nc : NetworkClient) (set : SyncPluginSettings) :
    ∀ (fuel : Nat) (path : String) (s : SyncState),
      s.events <+: (uploadFileGo nc set fuel path s).2.events := by
  intro fuel
  induction fuel with
  | zero =>
    intro path s
    cases hv : vget s.files path with
    | none => simp [uploadFileGo, hv]
    | some file =>
      by_cases hs : (nc.uploadFile path file.content
          ⟨metaRevD s.meta path, set.deviceId⟩).success = true
      · simp [uploadFileGo, hv, hs]
      · simp only [Bool.not_eq_true] at hs
        by_cases hcf : ((nc.uploadFile path file.content
            ⟨metaRevD s.meta path, set.deviceId⟩).error = some "Conflict detected" ∧
          (nc.uploadFile path file.content
            ⟨metaRevD s.meta path, set.deviceId⟩).conflict.isSome)
        · simp [uploadFileGo, hv, hs, hcf]
        · simp [uploadFileGo, hv, hs, hcf]
  | succ n ih =>
    intro path s
    cases hv : vget s.files path with
    | none => simp [uploadFileGo, hv]
    | some file =>
      by_cases hs : (nc.uploadFile path file.content
          ⟨metaRevD s.meta path, set.deviceId⟩).success = true
      · simp [uploadFileGo, hv, hs]
      · simp only [Bool.not_eq_true] at hs
        by_cases hcf : ((nc.uploadFile path file.content
            ⟨metaRevD s.meta path, set.deviceId⟩).error = some "Conflict detected" ∧
          (nc.uploadFile path file.content
            ⟨metaRevD s.meta path, set.deviceId⟩).conflict.isSome)
        · have hred : uploadFileGo nc set (n + 1) path s =
              (false, handleConflictWith nc (uploadFileGo nc set n) path
                (nc.uploadFile path file.content
                  ⟨metaRevD s.meta path, set.deviceId⟩).conflict
                (addEvent s (.netUpload path))) := by
            simp [uploadFileGo, hv, hs, hcf]
          rw [hred]
          refine List.IsPrefix.trans ?_
            (handleConflictWith_events_extends nc _ (fun p t => ih p t) path _ _)
          exact (prefix_addEvent _ _).trans (prefix_addEvent _ _)
        · simp [uploadFileGo, hv, hs, hcf]

end Honos

namespace Honos

/-- C5: an upload rejection flagged `Conflict detected` with a conflict
context routes the file to the conflict handler with that context (and
the operation returns `false` without the hard-failure log record);
every other unsuccessful upload result is logged as a per-file failure
and never invokes the handler. -/
theorem C5_conflict_routing (nc : NetworkClient) (set : SyncPluginSettings) (n : Nat)
    (path : String) (s : SyncState) (file : VFile)
    (hf : vget s.files path = some file) (hev : s.events = []) :
    (∀ cf, (nc.uploadFile path file.content
        ⟨metaRevD s.meta path, set.deviceId⟩).success = false →
      (nc.uploadFile path file.content
        ⟨metaRevD s.meta path, set.deviceId⟩).error = some "Conflict detected" →
      (nc.uploadFile path file.content
        ⟨metaRevD s.meta path, set.deviceId⟩).conflict = some cf →
      (uploadFileGo nc set (n + 1) path s).1 = false ∧
      Event.handleConflictCalled path (some cf) ∈
        (uploadFileGo nc set (n + 1) path s).2.events) ∧
    ((nc.uploadFile path file.content
        ⟨metaRevD s.meta path, set.deviceId⟩).success = false →
      ¬ ((nc.uploadFile path file.content
          ⟨metaRevD s.meta path, set.deviceId⟩).error = some "Conflict detected" ∧
         (nc.uploadFile path file.content
          ⟨metaRevD s.meta path, set.deviceId⟩).conflict.isSome) →
      (uploadFileGo nc set (n + 1) path s).1 = false ∧
      Event.consoleError ("Failed to upload " ++ path) ∈
        (uploadFileGo nc set (n + 1) path s).2.events ∧
      ∀ q c2, Event.handleConflictCalled q c2 ∉
        (uploadFileGo nc set (n + 1) path s).2.events) := by
  constructor
  · intro cf hs herr hcf
    have hred : uploadFileGo nc set (n + 1) path s =
        (false, handleConflictWith nc (uploadFileGo nc set n) path
          (nc.uploadFile path file.content ⟨metaRevD s.meta path, set.deviceId⟩).conflict
          (addEvent s (.netUpload path))) := by
      simp [uploadFileGo, hf, hs, herr, hcf]
    rw [hred]
    refine ⟨rfl, ?_⟩
    have hpre := handleConflictWith_events_extends nc (uploadFileGo nc set n)
      (fun p t => uploadFileGo_events_extends nc set n p t) path
      (nc.uploadFile path file.content ⟨metaRevD s.meta path, set.deviceId⟩).conflict
      (addEvent s (.netUpload path))
    show Event.handleConflictCalled path (some cf) ∈
      (handleConflictWith nc (uploadFileGo nc set n) path
        (nc.uploadFile path file.content ⟨metaRevD s.meta path, set.deviceId⟩).conflict
        (addEvent s (.netUpload path))).events
    rw [hcf] at hpre ⊢
    refine hpre.subset ?_
    simp
  · intro hs hncf
    have hred : uploadFileGo nc set (n + 1) path s =
        (false, addEvent (addEvent s (.netUpload path))
          (.consoleError ("Failed to upload " ++ path))) := by
      simp only [uploadFileGo, hf]
      rw [if_neg (by simp [hs]), if_neg hncf]
    rw [hred]
    refine ⟨rfl, ?_, ?_⟩
    · simp
    · intro q c2
      simp [hev]

/-- Witness for C5: a transport rejecting with a flagged conflict (part
one) and one rejecting with a plain error (part two). -/
theorem C5_conflict_routing_witness :
    ((uploadFileGo
        ⟨⟨true, some [], none⟩, fun _ _ => ⟨true, some ⟨"h", some 5, none, 1⟩, some "S", false⟩,
         fun _ _ _ => ⟨false, none, some "Conflict detected", some ⟨5, 3⟩⟩,
         fun _ _ => ⟨true, false⟩, fun _ => ⟨false, true, none⟩⟩ wSet 1 "a.md"
        ⟨[⟨"a.md", "L", 0⟩], [], [], 0, false, []⟩).1 = false ∧
      Event.handleConflictCalled "a.md" (some ⟨5, 3⟩) ∈
        (uploadFileGo
          ⟨⟨true, some [], none⟩, fun _ _ => ⟨true, some ⟨"h", some 5, none, 1⟩, some "S", false⟩,
           fun _ _ _ => ⟨false, none, some "Conflict detected", some ⟨5, 3⟩⟩,
           fun _ _ => ⟨true, false⟩, fun _ => ⟨false, true, none⟩⟩ wSet 1 "a.md"
          ⟨[⟨"a.md", "L", 0⟩], [], [], 0, false, []⟩).2.events) ∧
    ((uploadFileGo nullNC wSet 1 "b.md" ⟨[⟨"b.md", "L", 0⟩], [], [], 0, false, []⟩).1 = false ∧
      Event.consoleError ("Failed to upload " ++ "b.md") ∈
        (uploadFileGo nullNC wSet 1 "b.md" ⟨[⟨"b.md", "L", 0⟩], [], [], 0, false, []⟩).2.events ∧
      ∀ q c2, Event.handleConflictCalled q c2 ∉
        (uploadFileGo nullNC wSet 1 "b.md" ⟨[⟨"b.md", "L", 0⟩], [], [], 0, false, []⟩).2.events) :=
  ⟨(C5_conflict_routing
      ⟨⟨true, some [], none⟩, fun _ _ => ⟨true, some ⟨"h", some 5, none, 1⟩, some "S", false⟩,
       fun _ _ _ => ⟨false, none, some "Conflict detected", some ⟨5, 3⟩⟩,
       fun _ _ => ⟨true, false⟩, fun _ => ⟨false, true, none⟩⟩ wSet 0 "a.md"
      ⟨[⟨"a.md", "L", 0⟩], [], [], 0, false, []⟩ ⟨"a.md", "L", 0⟩ (by decide) rfl).1
      ⟨5, 3⟩ rfl rfl rfl,
   (C5_conflict_routing nullNC wSet 0 "b.md" ⟨[⟨"b.md", "L", 0⟩], [], [], 0, false, []⟩
      ⟨"b.md", "L", 0⟩ (by decide) rfl).2 rfl (by decide)⟩

end Honos

namespace Honos

/-! ### C6 — manual conflict fallback -/

@[simp] theorem files_vmodifyU (s : SyncState) (p c : String) :
    (vmodifyU s p c).files =
      s.files.map (fun f => if f.path = p then {f with content := c, mtime := s.clock} else f) :=
  rfl

theorem vget_append_of_none (l1 l2 : List VFile) (p : String) (h : vget l1 p = none) :
    vget (l1 ++ l2) p = vget l2 p := by
  induction l1 with
  | nil => rfl
  | cons f t ih =>
    simp only [vget] at h
    by_cases hf : f.path = p
    · rw [if_pos hf] at h; cases h
    · rw [if_neg hf] at h
      show vget (f :: (t ++ l2)) p = vget l2 p
      simp only [vget, if_neg hf]
      exact ih h

theorem vget_append_of_some (l1 l2 : List VFile) (p : String) (f : VFile)
    (h : vget l1 p = some f) : vget (l1 ++ l2) p = some f := by
  induction l1 with
  | nil => simp [vget] at h
  | cons g t ih =>
    by_cases hg : g.path = p
    · simp only [vget, if_pos hg] at h
      simp only [List.cons_append, vget, if_pos hg]
      exact h
    · simp only [vget, if_neg hg] at h
      simp only [List.cons_append, vget, if_neg hg]
      exact ih h

theorem vget_mapModify (l : List VFile) (p q c : String) (mt : Nat) :
    vget (l.map (fun f => if f.path = p then {f with content := c, mtime := mt} else f)) q
      = (vget l q).map (fun f => if f.path = p then {f with content := c, mtime := mt} else f) := by
  induction l with
  | nil => rfl
  | cons f t ih =>
    have hpath : (if f.path = p then ({f with content := c, mtime := mt} : VFile) else f).path
        = f.path := by
      split <;> rfl
    by_cases hf : f.path = q
    · simp only [List.map_cons, vget, hpath, if_pos hf]
      rfl
    · simp only [List.map_cons, vget, hpath, if_neg hf]
      exact ih

theorem vlookupAbs_missing_vget (s : SyncState) (p : String)
    (h : vlookupAbs s p = .missing) : vget s.files p = none := by
  unfold vlookupAbs at h
  cases hv : vget s.files p with
  | none => rfl
  | some f => rw [hv] at h; cases h

theorem vcreateE_error_of_not_missing (s : SyncState) (p c : String)
    (h : ¬ vlookupAbs s p = .missing) : vcreateE s p c = .error "file exists" := by
  unfold vcreateE
  split
  · next hl => exact absurd hl h
  · rfl

/-- The create-backup-then-mark tail of manual resolution: starting from
any state holding the conflicted file and no file at the backup path, it
creates exactly the backup (server content, stamped now) and overwrites
the conflicted file with the marked document, leaving the metadata store
untouched. -/
theorem createModify_spec (path lc sc bp : String) (t : SyncState) (file : VFile)
    (hf : vget t.files path = some file) (hbp : vget t.files bp = none)
    (hne : bp ≠ path) :
    (finishManual path lc sc bp (vcreateU t bp sc)).meta = t.meta ∧
    (finishManual path lc sc bp (vcreateU t bp sc)).files.length = t.files.length + 1 ∧
    vget (finishManual path lc sc bp (vcreateU t bp sc)).files bp = some ⟨bp, sc, t.clock⟩ ∧
    vget (finishManual path lc sc bp (vcreateU t bp sc)).files path =
      some {file with content := conflictMarked lc sc bp, mtime := t.clock + 1} := by
  have hfp : file.path = path := (vget_mem t.files path file hf).2
  refine ⟨rfl, ?_, ?_, ?_⟩
  · simp [finishManual]
  · unfold finishManual
    simp only [files_addEvent, files_vmodifyU, files_vcreateU, clock_vcreateU, List.map_append]
    rw [vget_append_of_none _ _ _ (by rw [vget_mapModify, hbp]; rfl)]
    simp [vget, Ne.symm hne, hne]
  · unfold finishManual
    simp only [files_addEvent, files_vmodifyU, files_vcreateU, clock_vcreateU, List.map_append]
    refine vget_append_of_some _ _ _ _ ?_
    rw [vget_mapModify, hf]
    simp [hfp]

/-- `handleManualConflict`, specified: when the conflicted file exists
and at least one of the two candidate backup names is free, exactly one
backup file holding the server content is created, the conflicted file
is overwritten with the marked document naming that backup, and the
metadata store is untouched. -/
theorem handleManualRun_spec (path lc sc : String) (s : SyncState) (file : VFile)
    (hf : vget s.files path = some file)
    (hfree : vlookupAbs s (path ++ ".conflict-" ++ tsString s.clock ++ ".md") = .missing ∨
             vlookupAbs s ("conflict-" ++ tsString s.clock ++ "-" ++ nameOf path) = .missing) :
    (handleManualRun path lc sc s).meta = s.meta ∧
    ∃ bp, (bp = path ++ ".conflict-" ++ tsString s.clock ++ ".md" ∨
           bp = "conflict-" ++ tsString s.clock ++ "-" ++ nameOf path) ∧
      (handleManualRun path lc sc s).files.length = s.files.length + 1 ∧
      vget (handleManualRun path lc sc s).files bp = some ⟨bp, sc, s.clock⟩ ∧
      vget (handleManualRun path lc sc s).files path =
        some {file with content := conflictMarked lc sc bp, mtime := s.clock + 1} := by
  unfold handleManualRun
  dsimp only
  simp only [clock_addEvent]
  by_cases hp : vlookupAbs s (path ++ ".conflict-" ++ tsString s.clock ++ ".md") = .missing
  · have hok : vcreateE (addEvent s (.notice ("Cannot auto-merge: " ++ path)))
        (path ++ ".conflict-" ++ tsString s.clock ++ ".md") sc =
        .ok (vcreateU (addEvent s (.notice ("Cannot auto-merge: " ++ path)))
          (path ++ ".conflict-" ++ tsString s.clock ++ ".md") sc) := by
      unfold vcreateE
      rw [vlookupAbs_addEvent, hp]
    rw [hok]
    have hbp : vget s.files (path ++ ".conflict-" ++ tsString s.clock ++ ".md") = none :=
      vlookupAbs_missing_vget s _ hp
    have hne : (path ++ ".conflict-" ++ tsString s.clock ++ ".md") ≠ path := by
      intro he
      rw [he] at hbp
      rw [hf] at hbp
      cases hbp
    obtain ⟨h1, h2, h3, h4⟩ := createModify_spec path lc sc
      (path ++ ".conflict-" ++ tsString s.clock ++ ".md")
      (addEvent s (.notice ("Cannot auto-merge: " ++ path))) file hf hbp hne
    exact ⟨h1, _, Or.inl rfl, h2, h3, h4⟩
  · have herr : vcreateE (addEvent s (.notice ("Cannot auto-merge: " ++ path)))
        (path ++ ".conflict-" ++ tsString s.clock ++ ".md") sc = .error "file exists" := by
      refine vcreateE_error_of_not_missing _ _ _ ?_
      rw [vlookupAbs_addEvent]
      exact hp
    rw [herr]
    have hfb : vlookupAbs s ("conflict-" ++ tsString s.clock ++ "-" ++ nameOf path)
        = .missing := by
      rcases hfree with h | h
      · exact absurd h hp
      · exact h
    have hok : vcreateE (addEvent s (.notice ("Cannot auto-merge: " ++ path)))
        ("conflict-" ++ tsString s.clock ++ "-" ++ nameOf path) sc =
        .ok (vcreateU (addEvent s (.notice ("Cannot auto-merge: " ++ path)))
          ("conflict-" ++ tsString s.clock ++ "-" ++ nameOf path) sc) := by
      unfold vcreateE
      rw [vlookupAbs_addEvent, hfb]
    rw [hok]
    have hbp : vget s.files ("conflict-" ++ tsString s.clock ++ "-" ++ nameOf path) = none :=
      vlookupAbs_missing_vget s _ hfb
    have hne : ("conflict-" ++ tsString s.clock ++ "-" ++ nameOf path) ≠ path := by
      intro he
      rw [he] at hbp
      rw [hf] at hbp
      cases hbp
    obtain ⟨h1, h2, h3, h4⟩ := createModify_spec path lc sc
      ("conflict-" ++ tsString s.clock ++ "-" ++ nameOf path)
      (addEvent s (.notice ("Cannot auto-merge: " ++ path))) file hf hbp hne
    exact ⟨h1, _, Or.inr rfl, h2, h3, h4⟩

end Honos

namespace Honos

/-- C6 counterexample: both candidate backup names already exist in the
vault, so both creates fail: no backup is created, the local file is not
overwritten, and metadata is unchanged — against the claim's
unconditional "creates exactly one backup file ... overwrites the local
file".  The conflict has `yourParentRevision = 0` (no ancestor), i.e. a
merge-failure case of the claim. -/
theorem C6_counterexample :
    (handleConflictWith c2NC (fun _ t => (false, t)) "n.md" (some ⟨5, 0⟩)
      ⟨[⟨"n.md", "L", 0⟩, ⟨"n.md.conflict-0.md", "B", 0⟩, ⟨"conflict-0-n.md", "B2", 0⟩],
        [], [], 0, false, []⟩).files =
      [⟨"n.md", "L", 0⟩, ⟨"n.md.conflict-0.md", "B", 0⟩, ⟨"conflict-0-n.md", "B2", 0⟩] ∧
    (handleConflictWith c2NC (fun _ t => (false, t)) "n.md" (some ⟨5, 0⟩)
      ⟨[⟨"n.md", "L", 0⟩, ⟨"n.md.conflict-0.md", "B", 0⟩, ⟨"conflict-0-n.md", "B2", 0⟩],
        [], [], 0, false, []⟩).meta = [] :=
  ⟨by decide, by decide⟩

/-- C6 amended: for every conflict on which the merge attempt fails
(no ancestor because `yourParentRevision = 0`, or the merge service
reports failure, a residual conflict, or empty merged content), provided
the conflicted file exists and at least one of the two candidate backup
names is free, the resolver creates exactly one backup file containing
the server's content, overwrites the local file with the marked document
naming that backup, and leaves the metadata store — in particular the
path's `revision` and `parentRevision` — unchanged. -/
theorem C6_manual_fallback (nc : NetworkClient)
    (cb : String → SyncState → Bool × SyncState) (path : String) (s : SyncState)
    (file : VFile) (conflict : ConflictInfo)
    (hf : vget s.files path = some file)
    (hmerge : conflict.yourParentRevision = 0 ∨
      ¬ ((nc.attemptAutoMerge ⟨path, file.content, conflict.yourParentRevision,
          conflict.currentRevision⟩).success = true ∧
         (nc.attemptAutoMerge ⟨path, file.content, conflict.yourParentRevision,
          conflict.currentRevision⟩).hasConflict = false ∧
         (nc.attemptAutoMerge ⟨path, file.content, conflict.yourParentRevision,
          conflict.currentRevision⟩).mergedContent.getD "" ≠ ""))
    (hfree : vlookupAbs s (path ++ ".conflict-" ++ tsString s.clock ++ ".md") = .missing ∨
             vlookupAbs s ("conflict-" ++ tsString s.clock ++ "-" ++ nameOf path) = .missing) :
    (handleConflictWith nc cb path (some conflict) s).meta = s.meta ∧
    ∃ bp, (bp = path ++ ".conflict-" ++ tsString s.clock ++ ".md" ∨
           bp = "conflict-" ++ tsString s.clock ++ "-" ++ nameOf path) ∧
      (handleConflictWith nc cb path (some conflict) s).files.length = s.files.length + 1 ∧
      vget (handleConflictWith nc cb path (some conflict) s).files bp =
        some ⟨bp, (nc.downloadFile path (some conflict.currentRevision)).content.getD "",
          s.clock⟩ ∧
      vget (handleConflictWith nc cb path (some conflict) s).files path =
        some {file with
          content := conflictMarked file.content
            ((nc.downloadFile path (some conflict.currentRevision)).content.getD "") bp,
          mtime := s.clock + 1} := by
  unfold handleConflictWith
  dsimp only
  by_cases hpr : conflict.yourParentRevision > 0
  · rw [if_pos hpr]
    have hfv : (addEvent (addEvent (addEvent
        (addEvent s (Event.handleConflictCalled path (some conflict)))
        (Event.notice ("Conflict detected, attempting auto-merge: " ++ path)))
        (Event.netDownload path (some conflict.currentRevision)))
        (Event.netDownload path (some conflict.yourParentRevision))).files = s.files := rfl
    rw [hfv]
    rcases hmerge with h0 | hm
    · omega
    · simp only [hf]
      rw [if_neg hm]
      obtain ⟨h1, bp, hbp, h2, h3, h4⟩ := handleManualRun_spec path file.content
        ((nc.downloadFile path (some conflict.currentRevision)).content.getD "")
        (addEvent (addEvent (addEvent (addEvent
          (addEvent s (Event.handleConflictCalled path (some conflict)))
          (Event.notice ("Conflict detected, attempting auto-merge: " ++ path)))
          (Event.netDownload path (some conflict.currentRevision)))
          (Event.netDownload path (some conflict.yourParentRevision)))
          (Event.netMerge path)) file (by simpa using hf) (by simpa using hfree)
      exact ⟨by simpa using h1, bp, by simpa using hbp, by simpa using h2,
        by simpa using h3, by simpa using h4⟩
  · rw [if_neg hpr]
    have hfv : (addEvent (addEvent
        (addEvent s (Event.handleConflictCalled path (some conflict)))
        (Event.notice ("Conflict detected, attempting auto-merge: " ++ path)))
        (Event.netDownload path (some conflict.currentRevision))).files = s.files := rfl
    rw [hfv]
    simp only [hf]
    obtain ⟨h1, bp, hbp, h2, h3, h4⟩ := handleManualRun_spec path file.content
      ((nc.downloadFile path (some conflict.currentRevision)).content.getD "")
      (addEvent (addEvent
        (addEvent s (Event.handleConflictCalled path (some conflict)))
        (Event.notice ("Conflict detected, attempting auto-merge: " ++ path)))
        (Event.netDownload path (some conflict.currentRevision))) file
      (by simpa using hf) (by simpa using hfree)
    exact ⟨by simpa using h1, bp, by simpa using hbp, by simpa using h2,
      by simpa using h3, by simpa using h4⟩

/-- Witness for the amended C6: a no-ancestor conflict on `n.md` with a
free primary backup name. -/
theorem C6_manual_fallback_witness :
    ((handleConflictWith c2NC (fun _ t => (false, t)) "n.md" (some ⟨5, 0⟩)
        ⟨[⟨"n.md", "L", 0⟩], [], [("n.md", ⟨"n.md", "h", 1, 3, 3, 0, "d"⟩)],
          0, false, []⟩).meta =
      [("n.md", ⟨"n.md", "h", 1, 3, 3, 0, "d"⟩)]) ∧
    ∃ bp, (bp = "n.md" ++ ".conflict-" ++ tsString 0 ++ ".md" ∨
           bp = "conflict-" ++ tsString 0 ++ "-" ++ nameOf "n.md") ∧
      (handleConflictWith c2NC (fun _ t => (false, t)) "n.md" (some ⟨5, 0⟩)
        ⟨[⟨"n.md", "L", 0⟩], [], [("n.md", ⟨"n.md", "h", 1, 3, 3, 0, "d"⟩)],
          0, false, []⟩).files.length = 1 + 1 ∧
      vget (handleConflictWith c2NC (fun _ t => (false, t)) "n.md" (some ⟨5, 0⟩)
        ⟨[⟨"n.md", "L", 0⟩], [], [("n.md", ⟨"n.md", "h", 1, 3, 3, 0, "d"⟩)],
          0, false, []⟩).files bp =
        some ⟨bp, (c2NC.downloadFile "n.md" (some 5)).content.getD "", 0⟩ ∧
      vget (handleConflictWith c2NC (fun _ t => (false, t)) "n.md" (some ⟨5, 0⟩)
        ⟨[⟨"n.md", "L", 0⟩], [], [("n.md", ⟨"n.md", "h", 1, 3, 3, 0, "d"⟩)],
          0, false, []⟩).files "n.md" =
        some ⟨"n.md", conflictMarked "L" ((c2NC.downloadFile "n.md" (some 5)).content.getD "")
          bp, 0 + 1⟩ :=
  C6_manual_fallback c2NC (fun _ t => (false, t)) "n.md"
    ⟨[⟨"n.md", "L", 0⟩], [], [("n.md", ⟨"n.md", "h", 1, 3, 3, 0, "d"⟩)], 0, false, []⟩
    ⟨"n.md", "L", 0⟩ ⟨5, 0⟩ (by decide) (Or.inl rfl) (Or.inl (by decide))

end Honos

namespace Honos

/-! ### C1 — idempotence of a full reconciliation pass -/

/-- Well-formed world: every file's mtime lies in the past (at or before
the clock), and vault paths are unique (as the host file tree
guarantees). -/
def WF (s : SyncState) : Prop :=
  (∀ f ∈ s.files, f.mtime ≤ s.clock) ∧ (vpaths s.files).Nodup

/-- Every listed remote descriptor is covered by a stored record at
least as new. -/
def RevCovered (F : List RemoteFile) (t : SyncState) : Prop :=
  ∀ r ∈ F, ∃ m, mget t.meta r.path = some m ∧ r.revision.getD 0 ≤ m.revision

/-- The file at a path (when present) is no newer than its record's
`lastSyncedAt`, so the upward phase skips it. -/
def PathSynced (t : SyncState) (p : String) : Prop :=
  ∀ f, vget t.files p = some f → ∃ m, mget t.meta p = some m ∧ f.mtime ≤ m.lastSyncedAt

/-- Upload responses assign revisions at least as new as the snapshot's
entry for the path (an optimistic-concurrency server does, whenever it
accepts). -/
def UploadRespectsSnapshot (nc : NetworkClient) (F : List RemoteFile) : Prop :=
  ∀ p c o, (nc.uploadFile p c o).success = true →
    ∀ r ∈ F, r.path = p →
      r.revision.getD 0 ≤ ((nc.uploadFile p c o).file.map (fun f => f.revision.getD 0)).getD 0

theorem vget_none_not_mem (l : List VFile) (p : String) (h : vget l p = none) :
    ¬ p ∈ vpaths l := by
  induction l with
  | nil => simp [vpaths]
  | cons f t ih =>
    simp only [vget] at h
    by_cases hf : f.path = p
    · rw [if_pos hf] at h; cases h
    · rw [if_neg hf] at h
      simp only [vpaths, List.map_cons, List.mem_cons]
      rintro (he | he)
      · exact hf he.symm
      · exact ih h he

theorem vlookupAbs_folder_mem (s : SyncState) (p : String)
    (h : vlookupAbs s p = .folder) : p ∈ s.folders := by
  unfold vlookupAbs at h
  cases hv : vget s.files p with
  | some f => rw [hv] at h; cases h
  | none =>
    rw [hv] at h
    by_cases hm : p ∈ s.folders
    · exact hm
    · rw [if_neg hm] at h; cases h

theorem vpaths_mapModify (l : List VFile) (p c : String) (mt : Nat) :
    vpaths (l.map (fun f => if f.path = p then {f with content := c, mtime := mt} else f))
      = vpaths l := by
  induction l with
  | nil => rfl
  | cons f t ih =>
    have hpath : (if f.path = p then ({f with content := c, mtime := mt} : VFile) else f).path
        = f.path := by split <;> rfl
    simp only [vpaths, List.map_cons] at ih ⊢
    rw [hpath, ih]

theorem WF_vcreateFolderU (s : SyncState) (p : String) (h : WF s) :
    WF (vcreateFolderU s p) := by
  obtain ⟨h1, h2⟩ := h
  exact ⟨fun f hf => le_trans (h1 f hf) (Nat.le_succ _), h2⟩

theorem WF_vmodifyU (s : SyncState) (p c : String) (h : WF s) : WF (vmodifyU s p c) := by
  obtain ⟨h1, h2⟩ := h
  constructor
  · intro f hf
    simp only [files_vmodifyU, List.mem_map] at hf
    obtain ⟨g, hg, rfl⟩ := hf
    show (if g.path = p then ({g with content := c, mtime := s.clock} : VFile) else g).mtime
      ≤ s.clock + 1
    split
    · exact Nat.le_succ _
    · exact le_trans (h1 g hg) (Nat.le_succ _)
  · show (vpaths ((vmodifyU s p c).files)).Nodup
    rw [files_vmodifyU, vpaths_mapModify]
    exact h2

theorem WF_vcreateU (s : SyncState) (p c : String) (h : WF s)
    (hnp : ¬ p ∈ vpaths s.files) : WF (vcreateU s p c) := by
  obtain ⟨h1, h2⟩ := h
  constructor
  · intro f hf
    simp only [files_vcreateU, List.mem_append, List.mem_singleton] at hf
    rcases hf with hf | rfl
    · exact le_trans (h1 f hf) (Nat.le_succ _)
    · exact Nat.le_succ _
  · show (vpaths (s.files ++ [⟨p, c, s.clock⟩])).Nodup
    have hvp : vpaths (s.files ++ [⟨p, c, s.clock⟩]) = vpaths s.files ++ [p] := by
      simp [vpaths]
    rw [hvp, List.nodup_append]
    refine ⟨h2, List.nodup_singleton _, ?_⟩
    intro x hx hxp
    simp only [List.mem_singleton] at hxp
    exact hnp (hxp ▸ hx)

theorem WF_saveMetaRec (s : SyncState) (p hs : String) (r pr sz : Nat) (d : String)
    (h : WF s) : WF (saveMetaRec s p hs r pr sz d) := by
  obtain ⟨h1, h2⟩ := h
  exact ⟨fun f hf => le_trans (h1 f hf) (Nat.le_succ _), h2⟩

end Honos

namespace Honos

/-- State effects of a single download: well-formedness is preserved,
the clock never goes backwards, and the only folder possibly added is
the path's parent. -/
theorem downloadFileRun_effects (nc : NetworkClient) (set : SyncPluginSettings)
    (path : String) (rev : Option Nat) (s : SyncState) (hwf : WF s) :
    WF (downloadFileRun nc set path rev s).2 ∧
    s.clock ≤ (downloadFileRun nc set path rev s).2.clock ∧
    (∀ x ∈ (downloadFileRun nc set path rev s).2.folders,
      x ∈ s.folders ∨ (x = folderOf path ∧ ¬ folderOf path = "")) := by
  unfold downloadFileRun
  cases hf : (nc.downloadFile path rev).file with
  | none =>
    simp only [hf]
    exact ⟨hwf, le_refl _, fun x hx => Or.inl hx⟩
  | some fi =>
    cases hc : (nc.downloadFile path rev).content with
    | none =>
      simp only [hf, hc]
      exact ⟨hwf, le_refl _, fun x hx => Or.inl hx⟩
    | some c =>
      by_cases hs : (nc.downloadFile path rev).success = true
      · simp only [hf, hc, hs, if_true]
        set s1 : SyncState := if (nc.downloadFile path rev).isConflict = true then
            addEvent (addEvent s (.netDownload path rev))
              (.notice ("Server marked as conflicted: " ++ path))
          else addEvent s (.netDownload path rev) with hs1
        have hs1m : s1.files = s.files ∧ s1.folders = s.folders ∧ s1.clock = s.clock := by
          rw [hs1]; split <;> exact ⟨rfl, rfl, rfl⟩
        have hwf1 : WF s1 := by
          obtain ⟨a, b⟩ := hwf
          exact ⟨fun f hfm => by rw [hs1m.2.2]; exact a f (hs1m.1 ▸ hfm), by
            rw [hs1m.1]; exact b⟩
        set s2 : SyncState := if folderOf path ≠ "" ∧ vlookupAbs s1 (folderOf path) = .missing
          then vcreateFolderU s1 (folderOf path) else s1 with hs2
        have hs2m : s2.files = s.files ∧ s2.clock = s.clock ∨
            s2.files = s.files ∧ s2.clock = s.clock + 1 := by
          rw [hs2]; split
          · exact Or.inr ⟨hs1m.1, by rw [clock_vcreateFolderU, hs1m.2.2]⟩
          · exact Or.inl ⟨hs1m.1, hs1m.2.2⟩
        have hwf2 : WF s2 := by
          rw [hs2]; split
          · exact WF_vcreateFolderU s1 _ hwf1
          · exact hwf1
        have hclock2 : s.clock ≤ s2.clock := by
          rcases hs2m with ⟨-, h⟩ | ⟨-, h⟩ <;> omega
        have hfold2 : ∀ x ∈ s2.folders,
            x ∈ s.folders ∨ (x = folderOf path ∧ ¬ folderOf path = "") := by
          rw [hs2]; split
          · next hcf =>
            intro x hx
            rw [folders_vcreateFolderU] at hx
            simp only [List.mem_append, List.mem_singleton] at hx
            rcases hx with hx | hx
            · rw [hs1m.2.1] at hx
              exact Or.inl hx
            · exact Or.inr ⟨hx, hcf.1⟩
          · intro x hx
            rw [hs1m.2.1] at hx
            exact Or.inl hx
        have hfiles2 : s2.files = s.files := by
          rcases hs2m with ⟨h, -⟩ | ⟨h, -⟩ <;> exact h
        cases hafp : vlookupAbs s1 path with
        | folder =>
          simp only [hafp]
          exact ⟨hwf2, hclock2, hfold2⟩
        | file f =>
          simp only [hafp]
          refine ⟨WF_saveMetaRec _ _ _ _ _ _ _ (WF_vmodifyU _ _ _ hwf2), ?_, ?_⟩
          · simp only [clock_saveMetaRec, clock_vmodifyU]
            omega
          · simp only [folders_saveMetaRec, folders_vmodifyU]
            exact hfold2
        | missing =>
          simp only [hafp]
          have hget : vget s.files path = none := by
            have := vlookupAbs_missing_vget s1 path hafp
            rw [hs1m.1] at this
            exact this
          refine ⟨WF_saveMetaRec _ _ _ _ _ _ _
            (WF_vcreateU _ _ _ hwf2 (by rw [hfiles2]; exact vget_none_not_mem _ _ hget)), ?_, ?_⟩
          · simp only [clock_saveMetaRec, clock_vcreateU]
            omega
          · simp only [folders_saveMetaRec, folders_vcreateU]
            exact hfold2
      · simp only [Bool.not_eq_true] at hs
        simp only [hf, hc, hs]
        exact ⟨hwf, le_refl _, fun x hx => Or.inl hx⟩

end Honos

namespace Honos

/-- Inversion: a download reporting `true` had a successful transport
response with descriptor and content. -/
theorem downloadFileRun_true (nc : NetworkClient) (set : SyncPluginSettings)
    (path : String) (rev : Option Nat) (s : SyncState)
    (h : (downloadFileRun nc set path rev s).1 = true) :
    (nc.downloadFile path rev).success = true ∧
    ∃ fi, (nc.downloadFile path rev).file = some fi ∧
      ∃ c, (nc.downloadFile path rev).content = some c := by
  unfold downloadFileRun at h
  cases hf : (nc.downloadFile path rev).file with
  | none => simp [hf] at h
  | some fi =>
    cases hc : (nc.downloadFile path rev).content with
    | none => simp [hf, hc] at h
    | some c =>
      by_cases hs : (nc.downloadFile path rev).success = true
      · exact ⟨hs, fi, rfl, c, rfl⟩
      · simp only [Bool.not_eq_true] at hs
        simp [hf, hc, hs] at h

/-- The failure counter after one downward iteration. -/
theorem downStep_failed (nc : NetworkClient) (set : SyncPluginSettings)
    (acc : Nat × Nat × SyncState) (r : RemoteFile)
    (hcond : mget acc.2.2.meta r.path = none ∨
      r.revision.getD 0 > ((mget acc.2.2.meta r.path).map (fun m => m.revision)).getD 0) :
    (downStep nc set acc r).2.1 =
      if (downloadFileRun nc set r.path (some (r.revision.getD 0)) acc.2.2).1
      then acc.2.1 else acc.2.1 + 1 := by
  simp only [downStep, if_pos hcond]
  split <;> simp_all

/-- One downward iteration: failures only grow; well-formedness, the
folder bound and the clock are maintained; stored revisions never
decrease; and when the iteration did not fail, its descriptor ends up
covered by the store. -/
theorem downStep_master (nc : NetworkClient) (set : SyncPluginSettings)
    (Fb : List String) (hecho : EchoDownload nc)
    (acc : Nat × Nat × SyncState) (r : RemoteFile)
    (hwf : WF acc.2.2) (hsub : ∀ x ∈ acc.2.2.folders, x ∈ Fb)
    (hrp : ¬ r.path ∈ Fb) (hrf : folderOf r.path = "" ∨ folderOf r.path ∈ Fb) :
    acc.2.1 ≤ (downStep nc set acc r).2.1 ∧
    WF (downStep nc set acc r).2.2 ∧
    (∀ x ∈ (downStep nc set acc r).2.2.folders, x ∈ Fb) ∧
    acc.2.2.clock ≤ (downStep nc set acc r).2.2.clock ∧
    ((downStep nc set acc r).2.1 = acc.2.1 →
      ∃ m, mget (downStep nc set acc r).2.2.meta r.path = some m ∧
        r.revision.getD 0 ≤ m.revision) := by
  by_cases hcond : (mget acc.2.2.meta r.path = none ∨
      r.revision.getD 0 > ((mget acc.2.2.meta r.path).map (fun m => m.revision)).getD 0)
  · have hst := downStep_state nc set acc r hcond
    have hfl := downStep_failed nc set acc r hcond
    obtain ⟨hwf', hclock', hfold'⟩ :=
      downloadFileRun_effects nc set r.path (some (r.revision.getD 0)) acc.2.2 hwf
    refine ⟨?_, ?_, ?_, ?_, ?_⟩
    · rw [hfl]; split <;> omega
    · rw [hst]; exact hwf'
    · rw [hst]
      intro x hx
      rcases hfold' x hx with hx2 | ⟨hx2, hx3⟩
      · exact hsub x hx2
      · rcases hrf with h0 | hin
        · exact absurd h0 (hx2 ▸ hx3)
        · exact hx2 ▸ hin
    · rw [hst]; exact hclock'
    · intro hfl0
      rw [hst]
      rw [hfl] at hfl0
      have hok : (downloadFileRun nc set r.path (some (r.revision.getD 0)) acc.2.2).1
          = true := by
        by_contra hno
        rw [if_neg hno] at hfl0
        omega
      obtain ⟨hs, fi, hf, c, hc⟩ := downloadFileRun_true nc set _ _ _ hok
      have hnf : vlookupAbs acc.2.2 r.path ≠ .folder := by
        intro hfo
        exact hrp (hsub _ (vlookupAbs_folder_mem _ _ hfo))
      obtain ⟨-, hset, -, -⟩ :=
        downloadFileRun_write nc set r.path (some (r.revision.getD 0)) acc.2.2 fi c hs hf
          hc hnf
      refine ⟨_, hset, ?_⟩
      have := hecho r.path (r.revision.getD 0) fi hf
      simp only
      omega
  · rw [downStep_skip nc set acc r hcond]
    push_neg at hcond
    obtain ⟨hcond1, hcond2⟩ := hcond
    cases hm : mget acc.2.2.meta r.path with
    | none => exact absurd hm hcond1
    | some m =>
      refine ⟨le_refl _, hwf, hsub, le_refl _, fun _ => ⟨m, rfl, ?_⟩⟩
      rw [hm] at hcond2
      simp only [Option.map_some', Option.getD_some] at hcond2
      omega

end Honos

namespace Honos

/-- The downward phase: failures only grow; well-formedness, the folder
bound and the clock are maintained; stored revisions never decrease; and
a failure-free phase leaves every listed descriptor covered. -/
theorem downPhase_master (nc : NetworkClient) (set : SyncPluginSettings)
    (Fb : List String) (hecho : EchoDownload nc) :
    ∀ (F : List RemoteFile) (acc : Nat × Nat × SyncState),
    WF acc.2.2 → (∀ x ∈ acc.2.2.folders, x ∈ Fb) →
    (∀ r ∈ F, ¬ r.path ∈ Fb) →
    (∀ r ∈ F, folderOf r.path = "" ∨ folderOf r.path ∈ Fb) →
    acc.2.1 ≤ (downPhase nc set F acc).2.1 ∧
    WF (downPhase nc set F acc).2.2 ∧
    (∀ x ∈ (downPhase nc set F acc).2.2.folders, x ∈ Fb) ∧
    acc.2.2.clock ≤ (downPhase nc set F acc).2.2.clock ∧
    (∀ p m, mget acc.2.2.meta p = some m →
      ∃ m2, mget (downPhase nc set F acc).2.2.meta p = some m2 ∧ m.revision ≤ m2.revision) ∧
    ((downPhase nc set F acc).2.1 = acc.2.1 →
      RevCovered F (downPhase nc set F acc).2.2) := by
  intro F
  induction F with
  | nil =>
    intro acc hwf hsub _ _
    exact ⟨le_refl _, hwf, hsub, le_refl _, fun p m hm => ⟨m, hm, le_refl _⟩,
      fun _ r hr => absurd hr (List.not_mem_nil r)⟩
  | cons r rest ih =>
    intro acc hwf hsub hrp hrf
    have hstep := downStep_master nc set Fb hecho acc r hwf hsub
      (hrp r (List.mem_cons_self r rest)) (hrf r (List.mem_cons_self r rest))
    obtain ⟨hfl1, hwf1, hsub1, hclk1, hcov1⟩ := hstep
    have hihyp := ih (downStep nc set acc r) hwf1 hsub1
      (fun r' hr' => hrp r' (List.mem_cons_of_mem r hr'))
      (fun r' hr' => hrf r' (List.mem_cons_of_mem r hr'))
    obtain ⟨ihfl, ihwf, ihsub, ihclk, ihmono, ihcov⟩ := hihyp
    have heq : downPhase nc set (r :: rest) acc =
        downPhase nc set rest (downStep nc set acc r) := rfl
    rw [heq]
    refine ⟨le_trans hfl1 ihfl, ihwf, ihsub, le_trans hclk1 ihclk, ?_, ?_⟩
    · intro p m hm
      obtain ⟨m1, hm1, hle1⟩ := downStep_meta_mono nc set acc r hecho p m hm
      obtain ⟨m2, hm2, hle2⟩ := ihmono p m1 hm1
      exact ⟨m2, hm2, le_trans hle1 hle2⟩
    · intro hfl0
      have hmid : (downStep nc set acc r).2.1 = acc.2.1 := by omega
      intro r' hr'
      rcases List.mem_cons.mp hr' with hr' | hr'
      · subst hr'
        obtain ⟨m, hm, hle⟩ := hcov1 hmid
        obtain ⟨m2, hm2, hle2⟩ := ihmono r'.path m hm
        exact ⟨m2, hm2, le_trans hle hle2⟩
      · exact ihcov (by omega) r' hr'

end Honos

namespace Honos

/-- Inversion: an upload reporting `true` found the file and got a
successful transport response. -/
theorem uploadFileGo_true (nc : NetworkClient) (set : SyncPluginSettings)
    (fuel : Nat) (path : String) (s : SyncState)
    (h : (uploadFileGo nc set fuel path s).1 = true) :
    ∃ file, vget s.files path = some file ∧
      (nc.uploadFile path file.content ⟨metaRevD s.meta path, set.deviceId⟩).success = true := by
  cases hv : vget s.files path with
  | none => simp [uploadFileGo, hv] at h
  | some file =>
    by_cases hs : (nc.uploadFile path file.content
        ⟨metaRevD s.meta path, set.deviceId⟩).success = true
    · exact ⟨file, rfl, hs⟩
    · exfalso
      simp only [Bool.not_eq_true] at hs
      by_cases hcf : ((nc.uploadFile path file.content
          ⟨metaRevD s.meta path, set.deviceId⟩).error = some "Conflict detected" ∧
        (nc.uploadFile path file.content
          ⟨metaRevD s.meta path, set.deviceId⟩).conflict.isSome)
      · cases fuel with
        | zero => simp [uploadFileGo, hv, hs, hcf] at h
        | succ n => simp [uploadFileGo, hv, hs, hcf] at h
      · simp [uploadFileGo, hv, hs, hcf] at h

/-- One upward iteration: failures only grow, and a non-failing
iteration preserves the vault, well-formedness, the clock direction and
snapshot coverage, and leaves its path synced. -/
theorem upStep_master (nc : NetworkClient) (set : SyncPluginSettings) (fuel : Nat)
    (F : List RemoteFile) (hup : UploadRespectsSnapshot nc F)
    (acc : Nat × Nat × SyncState) (p : String) (hwf : WF acc.2.2) :
    acc.2.1 ≤ (upStep nc set fuel acc p).2.1 ∧
    ((upStep nc set fuel acc p).2.1 = acc.2.1 →
      WF (upStep nc set fuel acc p).2.2 ∧
      (upStep nc set fuel acc p).2.2.files = acc.2.2.files ∧
      (upStep nc set fuel acc p).2.2.folders = acc.2.2.folders ∧
      acc.2.2.clock ≤ (upStep nc set fuel acc p).2.2.clock ∧
      (RevCovered F acc.2.2 → RevCovered F (upStep nc set fuel acc p).2.2) ∧
      PathSynced (upStep nc set fuel acc p).2.2 p ∧
      (∀ q, PathSynced acc.2.2 q → PathSynced (upStep nc set fuel acc p).2.2 q)) := by
  have hattempt : ∀ (hgo : (uploadFileGo nc set fuel p acc.2.2).1 = true),
      WF (uploadFileGo nc set fuel p acc.2.2).2 ∧
      (uploadFileGo nc set fuel p acc.2.2).2.files = acc.2.2.files ∧
      (uploadFileGo nc set fuel p acc.2.2).2.folders = acc.2.2.folders ∧
      acc.2.2.clock ≤ (uploadFileGo nc set fuel p acc.2.2).2.clock ∧
      (RevCovered F acc.2.2 → RevCovered F (uploadFileGo nc set fuel p acc.2.2).2) ∧
      PathSynced (uploadFileGo nc set fuel p acc.2.2).2 p ∧
      (∀ q, PathSynced acc.2.2 q → PathSynced (uploadFileGo nc set fuel p acc.2.2).2 q) := by
    intro hgo
    obtain ⟨file, hv, hs⟩ := uploadFileGo_true nc set fuel p acc.2.2 hgo
    rw [uploadFileGo_success nc set fuel p acc.2.2 file hv hs]
    have hmt : file.mtime ≤ acc.2.2.clock := hwf.1 file (vget_mem _ _ _ hv).1
    refine ⟨?_, rfl, rfl, by simp, ?_, ?_, ?_⟩
    · refine WF_saveMetaRec _ _ _ _ _ _ _ ?_
      exact ⟨fun f hf => hwf.1 f hf, hwf.2⟩
    · intro hrc r hr
      by_cases hpq : r.path = p
      · rw [hpq]
        refine ⟨_, mget_mset_self _ _ _, ?_⟩
        exact hup p file.content ⟨metaRevD acc.2.2.meta p, set.deviceId⟩ hs r hr hpq
      · obtain ⟨m, hm, hle⟩ := hrc r hr
        refine ⟨m, ?_, hle⟩
        show mget (mset _ p _) r.path = some m
        rw [mget_mset_ne _ _ _ _ (fun he => hpq he.symm)]
        exact hm
    · intro f hf
      refine ⟨_, mget_mset_self _ _ _, ?_⟩
      show f.mtime ≤ acc.2.2.clock
      have hf2 : vget acc.2.2.files p = some f := hf
      rw [hv] at hf2
      injection hf2 with hf2
      rw [← hf2]
      exact hmt
    · intro q hq f hf
      by_cases hpq : q = p
      · subst hpq
        refine ⟨_, mget_mset_self _ _ _, ?_⟩
        show f.mtime ≤ acc.2.2.clock
        have hf2 : vget acc.2.2.files q = some f := hf
        rw [hv] at hf2
        injection hf2 with hf2
        rw [← hf2]
        exact hmt
      · obtain ⟨m, hm, hle⟩ := hq f hf
        refine ⟨m, ?_, hle⟩
        show mget (mset _ p _) q = some m
        rw [mget_mset_ne _ _ _ _ (fun he => hpq he.symm)]
        exact hm
  unfold upStep
  cases hv : vget acc.2.2.files p with
  | none =>
    simp only [hv]
    refine ⟨le_refl _, fun _ => ⟨hwf, by trivial, by trivial, le_refl _, fun h => h, ?_,
      fun q hq => hq⟩⟩
    intro f hf
    rw [hv] at hf
    cases hf
  | some file =>
    simp only [hv]
    cases hm : mget acc.2.2.meta p with
    | none =>
      simp only [hm]
      by_cases hgo : (uploadFileGo nc set fuel p acc.2.2).1 = true
      · simp only [hgo, if_true]
        exact ⟨le_refl _, fun _ => hattempt hgo⟩
      · simp only [Bool.not_eq_true] at hgo
        simp only [hgo, if_false, Bool.false_eq_true]
        exact ⟨Nat.le_succ _, fun habs => absurd habs (by omega)⟩
    | some m =>
      simp only [hm]
      by_cases hlt : file.mtime > m.lastSyncedAt
      · rw [if_pos hlt]
        by_cases hgo : (uploadFileGo nc set fuel p acc.2.2).1 = true
        · simp only [hgo, if_true]
          exact ⟨le_refl _, fun _ => hattempt hgo⟩
        · simp only [Bool.not_eq_true] at hgo
          simp only [hgo, if_false, Bool.false_eq_true]
          exact ⟨Nat.le_succ _, fun habs => absurd habs (by omega)⟩
      · rw [if_neg hlt]
        refine ⟨le_refl _, fun _ => ⟨hwf, by trivial, by trivial, le_refl _, fun h => h, ?_,
          fun q hq => hq⟩⟩
        intro f hf
        rw [hv] at hf
        injection hf with hf
        exact ⟨m, hm, by rw [← hf]; omega⟩

end Honos

namespace Honos

/-- Failures never decrease across one upward iteration. -/
theorem upStep_failed_mono (nc : NetworkClient) (set : SyncPluginSettings) (fuel : Nat)
    (acc : Nat × Nat × SyncState) (p : String) :
    acc.2.1 ≤ (upStep nc set fuel acc p).2.1 := by
  unfold upStep
  cases hv : vget acc.2.2.files p with
  | none => simp only [hv]; exact le_refl _
  | some f =>
    simp only [hv]
    cases hm : mget acc.2.2.meta p with
    | none =>
      simp only [hm]
      split <;> simp
    | some m =>
      simp only [hm]
      split
      · split <;> simp
      · exact le_refl _

/-- Failures never decrease across the upward phase. -/
theorem upPhase_failed_mono (nc : NetworkClient) (set : SyncPluginSettings) (fuel : Nat) :
    ∀ (paths : List String) (acc : Nat × Nat × SyncState),
      acc.2.1 ≤ (upPhase nc set fuel paths acc).2.1 := by
  intro paths
  induction paths with
  | nil => intro acc; exact le_refl _
  | cons p rest ih =>
    intro acc
    exact le_trans (upStep_failed_mono nc set fuel acc p) (ih (upStep nc set fuel acc p))

/-- The upward phase: failures only grow, and a failure-free phase
preserves the vault, well-formedness, the clock direction and snapshot
coverage, leaves every processed path synced, and preserves syncedness
of arbitrary paths. -/
theorem upPhase_master (nc : NetworkClient) (set : SyncPluginSettings) (fuel : Nat)
    (F : List RemoteFile) (hup : UploadRespectsSnapshot nc F) :
    ∀ (paths : List String) (acc : Nat × Nat × SyncState), WF acc.2.2 →
    acc.2.1 ≤ (upPhase nc set fuel paths acc).2.1 ∧
    ((upPhase nc set fuel paths acc).2.1 = acc.2.1 →
      WF (upPhase nc set fuel paths acc).2.2 ∧
      (upPhase nc set fuel paths acc).2.2.files = acc.2.2.files ∧
      (upPhase nc set fuel paths acc).2.2.folders = acc.2.2.folders ∧
      acc.2.2.clock ≤ (upPhase nc set fuel paths acc).2.2.clock ∧
      (RevCovered F acc.2.2 → RevCovered F (upPhase nc set fuel paths acc).2.2) ∧
      (∀ p ∈ paths, PathSynced (upPhase nc set fuel paths acc).2.2 p) ∧
      (∀ q, PathSynced acc.2.2 q → PathSynced (upPhase nc set fuel paths acc).2.2 q)) := by
  intro paths
  induction paths with
  | nil =>
    intro acc hwf
    exact ⟨le_refl _, fun _ => ⟨hwf, rfl, rfl, le_refl _, fun h => h,
      fun p hp => absurd hp (List.not_mem_nil p), fun q hq => hq⟩⟩
  | cons p rest ih =>
    intro acc hwf
    have hstep := upStep_master nc set fuel F hup acc p hwf
    obtain ⟨hfl1, hrest1⟩ := hstep
    have heq : upPhase nc set fuel (p :: rest) acc =
        upPhase nc set fuel rest (upStep nc set fuel acc p) := rfl
    rw [heq]
    by_cases hflmid : (upStep nc set fuel acc p).2.1 = acc.2.1
    · obtain ⟨hwf1, hfiles1, hfold1, hclk1, hrc1, hsync1, hpres1⟩ := hrest1 hflmid
      have hihyp := ih (upStep nc set fuel acc p) hwf1
      obtain ⟨ihfl, ihrest⟩ := hihyp
      constructor
      · omega
      · intro hfl0
        obtain ⟨ihwf, ihfiles, ihfold, ihclk, ihrc, ihsync, ihpres⟩ := ihrest (by omega)
        refine ⟨ihwf, by rw [ihfiles, hfiles1], by rw [ihfold, hfold1],
          le_trans hclk1 ihclk, fun h => ihrc (hrc1 h), ?_, ?_⟩
        · intro q hq
          rcases List.mem_cons.mp hq with hq | hq
          · subst hq
            exact ihpres q hsync1
          · exact ihsync q hq
        · intro q hq
          exact ihpres q (hpres1 q hq)
    · have hihyp := ih (upStep nc set fuel acc p)
      have hmono : (upStep nc set fuel acc p).2.1 ≤
          (upPhase nc set fuel rest (upStep nc set fuel acc p)).2.1 :=
        upPhase_failed_mono nc set fuel rest (upStep nc set fuel acc p)
      constructor
      · omega
      · intro hfl0
        exfalso
        omega

end Honos

namespace Honos

/-- A downward phase over a fully covered snapshot does nothing at all. -/
theorem downPhase_noop (nc : NetworkClient) (set : SyncPluginSettings) :
    ∀ (F : List RemoteFile) (a b : Nat) (t : SyncState), RevCovered F t →
    downPhase nc set F (a, b, t) = (a, b, t) := by
  intro F
  induction F with
  | nil => intro a b t _; rfl
  | cons r rest ih =>
    intro a b t hrc
    obtain ⟨m, hm, hrev⟩ := hrc r (List.mem_cons_self r rest)
    have hskip : downStep nc set (a, b, t) r = (a, b, t) := by
      refine downStep_skip nc set (a, b, t) r ?_
      rw [hm]
      simp only [Option.map_some', Option.getD_some]
      push_neg
      exact ⟨fun h => absurd h (by simp), by omega⟩
    show downPhase nc set rest (downStep nc set (a, b, t) r) = (a, b, t)
    rw [hskip]
    exact ih a b t (fun r' hr' => hrc r' (List.mem_cons_of_mem r hr'))

/-- An upward iteration over a synced path does nothing. -/
theorem upStep_skip_of_synced (nc : NetworkClient) (set : SyncPluginSettings)
    (fuel : Nat) (acc : Nat × Nat × SyncState) (p : String)
    (h : PathSynced acc.2.2 p) : upStep nc set fuel acc p = acc := by
  unfold upStep
  cases hv : vget acc.2.2.files p with
  | none => simp only [hv]
  | some f =>
    simp only [hv]
    obtain ⟨m, hm, hle⟩ := h f hv
    simp only [hm]
    rw [if_neg (by omega)]

/-- An upward phase over synced paths does nothing at all. -/
theorem upPhase_noop (nc : NetworkClient) (set : SyncPluginSettings) (fuel : Nat) :
    ∀ (paths : List String) (a b : Nat) (t : SyncState),
    (∀ p ∈ paths, PathSynced t p) →
    upPhase nc set fuel paths (a, b, t) = (a, b, t) := by
  intro paths
  induction paths with
  | nil => intro a b t _; rfl
  | cons p rest ih =>
    intro a b t hsync
    show upPhase nc set fuel rest (upStep nc set fuel (a, b, t) p) = (a, b, t)
    rw [upStep_skip_of_synced nc set fuel (a, b, t) p (hsync p (List.mem_cons_self p rest))]
    exact ih a b t (fun q hq => hsync q (List.mem_cons_of_mem p hq))

/-- `syncVault` under a configured token, an idle engine and a
successful listing runs `syncCore` on the listed files. -/
theorem syncVault_run (nc : NetworkClient) (set : SyncPluginSettings) (fuel : Nat)
    (silent : Bool) (s : SyncState) (F : List RemoteFile)
    (htok : ¬ set.token = "") (hidle : s.isSyncing = false)
    (hsucc : nc.listFiles.success = true) (hfiles : nc.listFiles.files = some F) :
    syncVault nc set fuel silent s = syncCore nc set fuel silent F
      (addEvent (if silent then ({s with isSyncing := true} : SyncState)
        else addEvent ({s with isSyncing := true} : SyncState) (.notice "Starting sync..."))
        .netListFiles) := by
  unfold syncVault
  rw [if_neg htok, if_neg (by rw [hidle]; exact Bool.false_ne_true)]
  simp only [hfiles, hsucc]

/-- The outcome of `syncCore` is the completed summary of its phases. -/
theorem syncCore_outcome (nc : NetworkClient) (set : SyncPluginSettings) (fuel : Nat)
    (silent : Bool) (F : List RemoteFile) (t : SyncState) :
    (syncCore nc set fuel silent F t).1 =
      .completed ⟨(downPhase nc set F (0, 0, t)).1,
        (upPhase nc set fuel
          (((downPhase nc set F (0, 0, t)).2.2.files.filter
            (fun f => shouldSyncPath f.path)).map (fun f => f.path))
          (0, 0, (downPhase nc set F (0, 0, t)).2.2)).1,
        (downPhase nc set F (0, 0, t)).2.1 +
        (upPhase nc set fuel
          (((downPhase nc set F (0, 0, t)).2.2.files.filter
            (fun f => shouldSyncPath f.path)).map (fun f => f.path))
          (0, 0, (downPhase nc set F (0, 0, t)).2.2)).2.1⟩ := by
  unfold syncCore
  split <;> rfl

/-- The state left by `syncCore`: the upward phase's state with the
in-flight flag released (plus a possible completion notice). -/
theorem syncCore_state (nc : NetworkClient) (set : SyncPluginSettings) (fuel : Nat)
    (silent : Bool) (F : List RemoteFile) (t : SyncState) :
    (syncCore nc set fuel silent F t).2.meta =
      (upPhase nc set fuel
        (((downPhase nc set F (0, 0, t)).2.2.files.filter
          (fun f => shouldSyncPath f.path)).map (fun f => f.path))
        (0, 0, (downPhase nc set F (0, 0, t)).2.2)).2.2.meta ∧
    (syncCore nc set fuel silent F t).2.files =
      (upPhase nc set fuel
        (((downPhase nc set F (0, 0, t)).2.2.files.filter
          (fun f => shouldSyncPath f.path)).map (fun f => f.path))
        (0, 0, (downPhase nc set F (0, 0, t)).2.2)).2.2.files ∧
    (syncCore nc set fuel silent F t).2.isSyncing = false := by
  unfold syncCore
  split <;> exact ⟨rfl, rfl, rfl⟩

end Honos

namespace Honos

theorem revCovered_of_meta_eq (F : List RemoteFile) (t t' : SyncState)
    (h : t.meta = t'.meta) (hc : RevCovered F t) : RevCovered F t' := by
  intro r hr
  obtain ⟨m, hm, hle⟩ := hc r hr
  exact ⟨m, by rw [← h]; exact hm, hle⟩

theorem pathSynced_of_eq (t t' : SyncState) (p : String)
    (hf : t.files = t'.files) (hm : t.meta = t'.meta) (h : PathSynced t p) :
    PathSynced t' p := by
  intro f hfe
  obtain ⟨m, hme, hle⟩ := h f (by rw [hf]; exact hfe)
  exact ⟨m, by rw [← hm]; exact hme, hle⟩

/-- A transport listing the single remote path `docs` — which collides
with an existing local folder of that name — and echoing downloads. -/
def folderCollisionNC : NetworkClient where
  listFiles := ⟨true, some [⟨"docs", some 1, "h", 1⟩], none⟩
  downloadFile := fun _ v => ⟨true, some ⟨"h", v, none, 1⟩, some "x", false⟩
  uploadFile := fun _ _ _ => ⟨true, some ⟨"h", some 9⟩, none, none⟩
  deleteFile := fun _ _ => ⟨true, false⟩
  attemptAutoMerge := fun _ => ⟨false, false, none⟩

/-- A world holding only the local folder `docs`. -/
def folderState : SyncState := ⟨[], ["docs"], [], 0, false, []⟩

/-- A well-behaved transport: lists `a.md` at revision 1, echoes the
requested revision on download, and accepts uploads at revision 9. -/
def echoNC : NetworkClient where
  listFiles := ⟨true, some [⟨"a.md", some 1, "h", 1⟩], none⟩
  downloadFile := fun _ v => ⟨true, some ⟨"h", v, none, 1⟩, some "x", false⟩
  uploadFile := fun _ _ _ => ⟨true, some ⟨"h", some 9⟩, none, none⟩
  deleteFile := fun _ _ => ⟨true, false⟩
  attemptAutoMerge := fun _ => ⟨false, false, none⟩

/-- C1 counterexample: a remote path that names an existing local folder.
`downloadFile` then writes nothing yet reports success (the `TFile`
instance-check falls through and no metadata is saved), so the first
pass completes successfully as `⟨1, 0, 0⟩` — and so does every
subsequent pass: the second pass re-downloads instead of being the
claimed all-zero summary. -/
theorem C1_counterexample :
    (syncVault folderCollisionNC wSet 4 true folderState).1 =
      .completed ⟨1, 0, 0⟩ ∧
    (syncVault folderCollisionNC wSet 4 true
      (syncVault folderCollisionNC wSet 4 true folderState).2).1 =
      .completed ⟨1, 0, 0⟩ ∧
    ¬ (SyncOutcome.completed ⟨1, 0, 0⟩ = .completed ⟨0, 0, 0⟩) :=
  ⟨by decide, by decide, by decide⟩

/-- C1 amended: for a well-formed world with the engine idle and a token
configured, against a transport whose listing succeeds, whose download
responses echo the requested revision, whose accepted uploads assign
revisions at least as new as the snapshot's, and whose listed paths
collide neither with existing local folders nor with any listed path's
parent folder, a first `syncVault` pass that completes with zero
failures makes the immediately following pass (no intervening change)
complete with `downloaded = 0`, `uploaded = 0`, `failed = 0`. -/
theorem C1_reconcile_idempotent (nc : NetworkClient) (set : SyncPluginSettings)
    (fuel : Nat) (s0 : SyncState) (F : List RemoteFile) (silent1 silent2 : Bool)
    (d u : Nat)
    (hsucc : nc.listFiles.success = true) (hfiles : nc.listFiles.files = some F)
    (hwf : WF s0) (htok : ¬ set.token = "") (hidle : s0.isSyncing = false)
    (hecho : EchoDownload nc) (hup : UploadRespectsSnapshot nc F)
    (hfs : ∀ r ∈ F, ¬ r.path ∈ (s0.folders ++ F.map (fun x => folderOf x.path)))
    (h1 : (syncVault nc set fuel silent1 s0).1 = .completed ⟨d, u, 0⟩) :
    (syncVault nc set fuel silent2 (syncVault nc set fuel silent1 s0).2).1 =
      .completed ⟨0, 0, 0⟩ := by
  have hrun1 := syncVault_run nc set fuel silent1 s0 F htok hidle hsucc hfiles
  rw [hrun1] at h1 ⊢
  rw [syncCore_outcome] at h1
  set P1 : SyncState := addEvent (if silent1 then ({s0 with isSyncing := true} : SyncState)
    else addEvent ({s0 with isSyncing := true} : SyncState) (.notice "Starting sync..."))
    .netListFiles with hP1
  have hP1m : P1.meta = s0.meta := by rw [hP1]; split <;> rfl
  have hP1f : P1.files = s0.files := by rw [hP1]; split <;> rfl
  have hP1d : P1.folders = s0.folders := by rw [hP1]; split <;> rfl
  have hP1c : P1.clock = s0.clock := by rw [hP1]; split <;> rfl
  have hwfP1 : WF P1 := by
    obtain ⟨a, b⟩ := hwf
    constructor
    · intro f hf
      rw [hP1c]
      exact a f (by rw [← hP1f]; exact hf)
    · rw [hP1f]; exact b
  have hdown := downPhase_master nc set (s0.folders ++ F.map (fun x => folderOf x.path))
    hecho F (0, 0, P1) hwfP1
    (by intro x hx
        rw [show (0, 0, P1).2.2 = P1 from rfl, hP1d] at hx
        exact List.mem_append_left _ hx)
    (fun r hr => hfs r hr)
    (fun r hr => Or.inr (List.mem_append_right _ (List.mem_map_of_mem _ hr)))
  obtain ⟨hdfl, hdwf, hdsub, hdclk, hdmono, hdcov⟩ := hdown
  have hupm := upPhase_master nc set fuel F hup
    (((downPhase nc set F (0, 0, P1)).2.2.files.filter
      (fun f => shouldSyncPath f.path)).map (fun f => f.path))
    (0, 0, (downPhase nc set F (0, 0, P1)).2.2) hdwf
  obtain ⟨hufl, hurest⟩ := hupm
  have hfail : (downPhase nc set F (0, 0, P1)).2.1 +
      (upPhase nc set fuel
        (((downPhase nc set F (0, 0, P1)).2.2.files.filter
          (fun f => shouldSyncPath f.path)).map (fun f => f.path))
        (0, 0, (downPhase nc set F (0, 0, P1)).2.2)).2.1 = 0 := by
    simp only [SyncOutcome.completed.injEq, SyncSummary.mk.injEq] at h1
    exact h1.2.2
  have hDfl : (downPhase nc set F (0, 0, P1)).2.1 = 0 := by omega
  have hUfl : (upPhase nc set fuel
      (((downPhase nc set F (0, 0, P1)).2.2.files.filter
        (fun f => shouldSyncPath f.path)).map (fun f => f.path))
      (0, 0, (downPhase nc set F (0, 0, P1)).2.2)).2.1 = 0 := by omega
  obtain ⟨huwf, hufiles, hufold, huclk, hurc, husync, hupres⟩ := hurest hUfl
  have hrcU := hurc (hdcov hDfl)
  obtain ⟨hs1m, hs1f, hs1sync⟩ := syncCore_state nc set fuel silent1 F P1
  -- the second pass
  have hrun2 := syncVault_run nc set fuel silent2 (syncCore nc set fuel silent1 F P1).2 F
    htok hs1sync hsucc hfiles
  rw [hrun2, syncCore_outcome]
  set s1 : SyncState := (syncCore nc set fuel silent1 F P1).2 with hs1
  set P2 : SyncState := addEvent (if silent2 then ({s1 with isSyncing := true} : SyncState)
    else addEvent ({s1 with isSyncing := true} : SyncState) (.notice "Starting sync..."))
    .netListFiles with hP2
  have hP2m : P2.meta = s1.meta := by rw [hP2]; split <;> rfl
  have hP2f : P2.files = s1.files := by rw [hP2]; split <;> rfl
  have hrcP2 : RevCovered F P2 := by
    refine revCovered_of_meta_eq F _ _ ?_ hrcU
    rw [hP2m, hs1]
    exact hs1m.symm
  have hnoopd : downPhase nc set F (0, 0, P2) = (0, 0, P2) :=
    downPhase_noop nc set F 0 0 P2 hrcP2
  rw [hnoopd]
  have hP2fU : P2.files = (upPhase nc set fuel
      (((downPhase nc set F (0, 0, P1)).2.2.files.filter
        (fun f => shouldSyncPath f.path)).map (fun f => f.path))
      (0, 0, (downPhase nc set F (0, 0, P1)).2.2)).2.2.files := by
    rw [hP2f, hs1]
    exact hs1f
  have hnoopu : upPhase nc set fuel
      ((P2.files.filter (fun f => shouldSyncPath f.path)).map (fun f => f.path))
      (0, 0, P2) = (0, 0, P2) := by
    refine upPhase_noop nc set fuel _ 0 0 P2 ?_
    intro p hp
    have hpU : p ∈ (((downPhase nc set F (0, 0, P1)).2.2.files.filter
        (fun f => shouldSyncPath f.path)).map (fun f => f.path)) := by
      rw [hP2fU, hufiles] at hp
      exact hp
    refine pathSynced_of_eq _ _ p ?_ ?_ (husync p hpU)
    · rw [hP2fU]
    · rw [hP2m, hs1]
      exact hs1m.symm
  show SyncOutcome.completed ⟨(0, 0, P2).1, (upPhase nc set fuel
      (((0, 0, P2).2.2.files.filter (fun f => shouldSyncPath f.path)).map
        (fun f => f.path)) (0, 0, (0, 0, P2).2.2)).1, (0, 0, P2).2.1 + (upPhase nc set fuel
      (((0, 0, P2).2.2.files.filter (fun f => shouldSyncPath f.path)).map
        (fun f => f.path)) (0, 0, (0, 0, P2).2.2)).2.1⟩ = .completed ⟨0, 0, 0⟩
  rw [show ((0, 0, P2) : Nat × Nat × SyncState).2.2 = P2 from rfl, hnoopu]
  rfl

/-- Witness for the amended C1: against the echoing transport, from the
empty world, the first pass completes as `⟨1, 0, 0⟩` and the theorem
yields the all-zero summary for the immediately following pass. -/
theorem C1_reconcile_idempotent_witness :
    (syncVault echoNC wSet 4 true emptyState).1 = .completed ⟨1, 0, 0⟩ ∧
    (syncVault echoNC wSet 4 true (syncVault echoNC wSet 4 true emptyState).2).1 =
      .completed ⟨0, 0, 0⟩ :=
  ⟨by decide,
   C1_reconcile_idempotent echoNC wSet 4 emptyState [⟨"a.md", some 1, "h", 1⟩]
     true true 1 0 rfl rfl
     ⟨fun f hf => absurd hf (List.not_mem_nil f), List.nodup_nil⟩
     (by decide) rfl
     (fun p v fi hfi => by rw [← Option.some.inj hfi]; rfl)
     (by intro p c o hs r hr hp
         simp only [List.mem_singleton] at hr
         subst hr
         show (1 : Nat) ≤ 9
         decide)
     (by decide)
     (by decide)⟩

end Honos
